/- Verification development for the IDAES grid-integration multiperiod code
   (idaes/apps/grid_integration/multiperiod/multiperiod.py and
   price_taker_model.py).  The Pyomo model is shallowly embedded: a period
   block is a record carrying the user-built process content together with
   the optional `link_constraints` and `periodic_constraints` containers that
   the code attaches to it, the model's TIME set (initialized as range(n)
   and only ever extended with last+1, hence always contiguous from 0) is
   represented positionally by a list of blocks, and Python exceptions are
   explicit error values.  External collaborators (the user's process-model
   factory, linking-pair functions, the solver, sklearn's KMeans and the
   kneed KneeLocator) are explicit function parameters, per the spec's
   interface-only treatment; sklearn's KMeans with random_state=None reads
   and advances numpy's global RNG, modelled by threading an explicit RNG
   state. -/
import Mathlib

set_option autoImplicit false

namespace Idaes

variable {Kw P V S : Type}

/-! ## Helpers: Python list / dict operations -/

variable {α : Type}

/-- In-place update l[i] = f(l[i]); an out-of-range index leaves the list
unchanged. -/
def setAt : List α → Nat → (α → α) → List α
  | [], _, _ => []
  | a :: t, 0, f => f a :: t
  | a :: t, n + 1, f => a :: setAt t n f

/-- Insertion into an ascending list, used to embed Python sorted(). -/
def insertSorted (x : Nat) : List Nat → List Nat
  | [] => [x]
  | y :: ys => if x ≤ y then x :: y :: ys else y :: insertSorted x ys

/-- Embedding of Python sorted() over a dict's integer keys. -/
def pySorted : List Nat → List Nat
  | [] => []
  | x :: xs => insertSorted x (pySorted xs)

/-- Embedding of a Python dict lookup d[t] over an association list
(dict keys are unique, so first match is the value). -/
def dictGet (d : List (Nat × Kw)) (t : Nat) : Option Kw :=
  match d with
  | [] => none
  | (k, v) :: rest => if k = t then some v else dictGet rest t

/-- Python exceptions that the embedded code can raise. -/
inductive PyError where
  | assertionError
  | keyError
  | indexError
  | attributeError
  | typeError
deriving Repr, DecidableEq

/-! ## multiperiod.py: MultiPeriodModel (non-stochastic build + advance) -/

/-- One equality constraint pair[0] == pair[1]. -/
structure EqCon (V : Type) where
  lhs : V
  rhs : V
deriving Repr, DecidableEq

/-- A pyo.Constraint container indexed 0..len-1 (`cons[i]` is the i-th
equality) with its Pyomo active flag (constraints are active on creation). -/
structure ConContainer (V : Type) where
  cons : List (EqCon V)
  active : Bool
deriving Repr, DecidableEq

/-- mkEq pair builds the equality constraint pair[0] == pair[1]. -/
def mkEq (p : V × V) : EqCon V := ⟨p.1, p.2⟩

/-- The m.blocks[t].process block: user process content plus the constraint
containers multiperiod.py attaches to it under the fixed attribute names
link_constraints / periodic_constraints (absent attribute = none). -/
structure ProcessBlock (P V : Type) where
  process : P
  active : Bool
  link_constraints : Option (ConContainer V)
  periodic_constraints : Option (ConContainer V)
deriving Repr, DecidableEq

/-- The mutable model state: m.blocks (TIME is always contiguous 0..len-1,
so blocks are kept positionally) and self._first_active_time (None before
build_multi_period_model runs). -/
structure MPState (P V : Type) where
  blocks : List (ProcessBlock P V)
  first_active_time : Option Nat
deriving Repr, DecidableEq

/-- Result of a build/advance call: the (possibly partially mutated) model
state together with the exception that propagated, if any. -/
structure MPResult (P V : Type) where
  state : MPState P V
  error : Option PyError
deriving Repr, DecidableEq

/-- The constructor arguments of MultiPeriodModel used on the
non-stochastic path.  empty_kwargs stands for the empty keyword dict passed
to the factory when no per-period kwargs are supplied. -/
structure MPConfig (Kw P V : Type) where
  n_time_points : Nat
  create_process_model : Kw → P
  get_linking_variable_pairs : P → P → List (V × V)
  get_periodic_variable_pairs : Option (P → P → List (V × V))
  empty_kwargs : Kw

/-- blk.process.deactivate(): flip the Pyomo active flag; nothing is
deleted. -/
def deactivate_block (b : ProcessBlock P V) : ProcessBlock P V :=
  { b with active := false }

/-- blk.periodic_constraints.deactivate(): flip the container's active
flag; the container (and its constraints) is retained. -/
def deactivate_periodic (b : ProcessBlock P V) : ProcessBlock P V :=
  { b with periodic_constraints :=
      b.periodic_constraints.map (fun c => { c with active := false }) }

/-- Embeds _create_linking_constraints: b1.link_constraints =
Constraint(range(len(pairs))); link_constraints[i] = pair[0] == pair[1]. -/
def create_linking_constraints (b : ProcessBlock P V) (variable_pairs : List (V × V)) :
    ProcessBlock P V :=
  { b with link_constraints := some ⟨variable_pairs.map mkEq, true⟩ }

/-- Embeds _create_periodic_constraints: b1.periodic_constraints =
Constraint(range(len(pairs))); periodic_constraints[i] = pair[0] == pair[1]. -/
def create_periodic_constraints (b : ProcessBlock P V) (variable_pairs : List (V × V)) :
    ProcessBlock P V :=
  { b with periodic_constraints := some ⟨variable_pairs.map mkEq, true⟩ }

/-- Embeds the block-construction loop of build_multi_period_model over the
remaining TIME indices ts: blocks[t].process = create_process_model(
**model_data_kwargs[t]); a missing key raises KeyError, leaving the blocks
built so far on the model. -/
def build_blocks (cfg : MPConfig Kw P V) (d : List (Nat × Kw)) :
    List Nat → List (ProcessBlock P V) × Option PyError
  | [] => ([], none)
  | t :: ts =>
    match dictGet d t with
    | none => ([], some .keyError)
    | some kw =>
      let b : ProcessBlock P V := ⟨cfg.create_process_model kw, true, none, none⟩
      let (rest, e) := build_blocks cfg d ts
      (b :: rest, e)

/-- Embeds the linking loop: for t in TIME[:-1], attach
link_constraints built from get_linking_variable_pairs(blocks[t].process,
blocks[t+1].process) onto blocks[t].process.  (Attaching constraints does
not change the process content read by the pair function, so folding over
the list is equivalent to the in-place Python loop.) -/
def link_all (cfg : MPConfig Kw P V) : List (ProcessBlock P V) → List (ProcessBlock P V)
  | [] => []
  | [b] => [b]
  | b :: b' :: rest =>
    create_linking_constraints b (cfg.get_linking_variable_pairs b.process b'.process) ::
      link_all cfg (b' :: rest)

/-- The kwargs dict actually used by build_multi_period_model: the default
empty dictionaries {t: {} for t in range(n)} when none are provided. -/
def resolve_kwargs (cfg : MPConfig Kw P V) (model_data_kwargs : Option (List (Nat × Kw))) :
    List (Nat × Kw) :=
  match model_data_kwargs with
  | none => (List.range cfg.n_time_points).map (fun t => (t, cfg.empty_kwargs))
  | some d => d

/-- The body of build_multi_period_model after the kwargs default has been
resolved.  The assert compares list(range(len(model_data_kwargs))) with
sorted(model_data_kwargs); only on success are blocks built, linked,
periodically closed (when configured) and _first_active_time set to
TIME.first() = 0. -/
def build_with_dict (cfg : MPConfig Kw P V) (d : List (Nat × Kw)) : MPResult P V :=
  if pySorted (d.map (·.1)) = List.range d.length then
    let (blks, err) := build_blocks cfg d (List.range cfg.n_time_points)
    match err with
    | some e => ⟨⟨blks, none⟩, some e⟩
    | none =>
      let linked := link_all cfg blks
      match cfg.get_periodic_variable_pairs with
      | none =>
        match linked with
        | [] => ⟨⟨[], none⟩, some .indexError⟩   -- TIME.first() on an empty set
        | _ => ⟨⟨linked, some 0⟩, none⟩
      | some pf =>
        match linked[linked.length - 1]?, linked[0]? with
        | some blast, some b0 =>
          let ppairs := pf blast.process b0.process
          ⟨⟨setAt linked (linked.length - 1)
              (fun b => create_periodic_constraints b ppairs), some 0⟩, none⟩
        | _, _ => ⟨⟨linked, none⟩, some .keyError⟩   -- m.blocks[N-1] with no blocks
  else ⟨⟨[], none⟩, some .assertionError⟩

/-- Embeds build_multi_period_model(model_data_kwargs): resolve the default
kwargs, then run the build body. -/
def build_multi_period_model (cfg : MPConfig Kw P V)
    (model_data_kwargs : Option (List (Nat × Kw))) : MPResult P V :=
  build_with_dict cfg (resolve_kwargs cfg model_data_kwargs)

/-- Embeds advance_time(**model_data_kwargs).  TIME.next raises when
_first_active_time is the last index; block deactivation flips the Pyomo
active flag and deletes nothing. -/
def advance_time (cfg : MPConfig Kw P V) (s : MPState P V) (kw : Kw) : MPResult P V :=
  match s.first_active_time with
  | none => ⟨s, some .attributeError⟩   -- self._pyomo_model is still None
  | some previous_time =>
    if previous_time + 1 < s.blocks.length then
      let current_time := previous_time + 1
      -- deactivate previous time
      let blocks0 := setAt s.blocks previous_time deactivate_block
      -- populate new time for the end of the horizon
      let last_time := s.blocks.length - 1
      let new_time := last_time + 1
      let blocks1 := blocks0 ++ [⟨cfg.create_process_model kw, true, none, none⟩]
      match blocks1[last_time]?, blocks1[new_time]? with
      | some blast, some bnew =>
        -- sequential time coupling
        let pairs := cfg.get_linking_variable_pairs blast.process bnew.process
        let blocks2 := setAt blocks1 last_time (fun b => create_linking_constraints b pairs)
        match cfg.get_periodic_variable_pairs with
        | none => ⟨⟨blocks2, some current_time⟩, none⟩
        | some pf =>
          match blocks2[new_time]?, blocks2[current_time]? with
          | some bnew2, some bcur =>
            let ppairs := pf bnew2.process bcur.process
            let blocks3 := setAt blocks2 new_time
              (fun b => create_periodic_constraints b ppairs)
            -- deactivate old periodic constraint
            match blocks3[last_time]? with
            | some bl3 =>
              match bl3.periodic_constraints with
              | some _ =>
                let blocks4 := setAt blocks3 last_time deactivate_periodic
                ⟨⟨blocks4, some current_time⟩, none⟩
              | none => ⟨⟨blocks3, some current_time⟩, some .attributeError⟩
            | none => ⟨⟨blocks3, some current_time⟩, some .indexError⟩
          | _, _ => ⟨⟨blocks2, some current_time⟩, some .indexError⟩
      | _, _ => ⟨⟨blocks1, some current_time⟩, some .indexError⟩
    else ⟨s, some .indexError⟩   -- TIME.next(previous_time) past the end

/-- Iterated advance_time, stopping at the first exception. -/
def advanceN (cfg : MPConfig Kw P V) (s : MPState P V) : List Kw → MPResult P V
  | [] => ⟨s, none⟩
  | kw :: kws =>
    let r := advance_time cfg s kw
    match r.error with
    | some _ => r
    | none => advanceN cfg r.state kws

/-- Number of blocks carrying an active periodic_constraints container. -/
def countActivePeriodic (s : MPState P V) : Nat :=
  s.blocks.countP (fun b =>
    match b.periodic_constraints with
    | some c => c.active
    | none => false)

/-- Number of blocks carrying a periodic_constraints container at all
(deactivated containers are retained, never deleted). -/
def countPeriodicContainers (s : MPState P V) : Nat :=
  s.blocks.countP (fun b => b.periodic_constraints.isSome)

/-- Well-formedness maintained by build_multi_period_model and preserved by
advance_time: _first_active_time is set and strictly before the last index,
the last block carries no link_constraints yet, and when periodic coupling
is configured the last block's periodic container is active while every
earlier periodic container is deactivated. -/
def wfB (cfg : MPConfig Kw P V) (s : MPState P V) : Bool :=
  (match s.first_active_time with
   | some fa => decide (fa + 1 < s.blocks.length)
   | none => false)
  && (match s.blocks[s.blocks.length - 1]? with
      | some b => b.link_constraints.isNone
      | none => false)
  && (if cfg.get_periodic_variable_pairs.isSome then
        (match s.blocks[s.blocks.length - 1]? with
         | some b =>
           match b.periodic_constraints with
           | some c => c.active
           | none => false
         | none => false)
        && s.blocks.dropLast.all (fun b =>
             match b.periodic_constraints with
             | some c => !c.active
             | none => true)
      else true)

/-! ## multiperiod.py: build_stochastic_multiperiod -/

/-- A period index tuple: always a time component, optionally a day and a
year, mirroring the four tuple shapes (t), (t,d), (t,y), (t,d,y) built by
build_stochastic_multiperiod. -/
abbrev Idx := Nat × Option Nat × Option Nat

/-- A period block of the stochastic build: process content built in place
by create_process_model(blk, **flowsheet_options), the (never created)
constraint containers, the state snapshot loaded by from_json, and whether
the unfix-degrees-of-freedom callback ran on it. -/
structure SPeriodBlock (P V S : Type) where
  process : P
  link_constraints : Option (ConContainer V)
  periodic_constraints : Option (ConContainer V)
  loaded : Option S
  dof_unfixed : Bool
deriving Repr, DecidableEq

/-- The nested container structure: self.period when no scenario set is
given, self.scenario[s].period otherwise. -/
inductive StochPeriods (P V S : Type) where
  | single (period : List (Idx × SPeriodBlock P V S))
  | multi (scenario : List (Nat × List (Idx × SPeriodBlock P V S)))
deriving Repr

/-- Observable steps of the stochastic build, in execution order. -/
inductive Event (S : Type) where
  | builtPeriod (scen : Option Nat) (idx : Idx)
  | seedInstance
  | seedSolve (optimal : Bool)
  | applySnapshot (scen : Option Nat) (idx : Idx)
  | unfixDof (scen : Option Nat) (idx : Idx)
deriving Repr, DecidableEq

/-- Result of build_stochastic_multiperiod: the final (possibly partially
initialized) model, the trace of steps taken, and the exception that
propagated, if any. -/
structure StochResult (P V S : Type) where
  state : StochPeriods P V S
  trace : List (Event S)
  error : Option PyError
deriving Repr

/-- Constructor arguments of MultiPeriodModel relevant to the stochastic
build path (use_stochastic_build=True).  get_linking_variable_pairs is
stored on the model but, as the embedding shows, never used by this path.
solver.solve both returns a termination status (True = optimal, checked by
pyo.check_optimal_termination) and loads the solution into the block;
to_json snapshots a block's variable values. -/
structure StochConfig (Kw P V S : Type) where
  n_time_points : Nat
  set_days : Option (List Nat)
  set_years : Option (List Nat)
  set_scenarios : Option (List Nat)
  create_process_model : Kw → P
  get_linking_variable_pairs : P → P → List (V × V)
  flowsheet_options : Kw
  initialization_options : Kw
  unfix_dof_options : Kw
  initialization_func : Option (P → Kw → P)
  unfix_dof_func : Option (P → Kw → P)
  solver : P → Bool × P
  to_json : P → S

/-- Embeds the set_period cross product: time = RangeSet(n) = [1..n], with
the explicit nesting order (for y: for d: for t) of the source. -/
def set_period (cfg : StochConfig Kw P V S) : List Idx :=
  let set_time := List.range' 1 cfg.n_time_points
  match cfg.set_years, cfg.set_days with
  | some ys, some ds =>
    ys.flatMap (fun y => ds.flatMap (fun d => set_time.map (fun t => (t, some d, some y))))
  | some ys, none => ys.flatMap (fun y => set_time.map (fun t => (t, none, some y)))
  | none, some ds => ds.flatMap (fun d => set_time.map (fun t => (t, some d, none)))
  | none, none => set_time.map (fun t => (t, none, none))

/-- Embeds _build_scenario_model: one fresh block per period index, built by
create_process_model(m.period[i], **flowsheet_options); no constraint
containers are attached. -/
def build_scenario_periods (cfg : StochConfig Kw P V S) :
    List (Idx × SPeriodBlock P V S) :=
  (set_period cfg).map
    (fun i => (i, ⟨cfg.create_process_model cfg.flowsheet_options, none, none, none, false⟩))

/-- from_json(period, sd=init_model) applied to every period of every
scenario. -/
def apply_snapshot_all (sd : S) : StochPeriods P V S → StochPeriods P V S
  | .single ps => .single (ps.map (fun ib => (ib.1, { ib.2 with loaded := some sd })))
  | .multi ss => .multi (ss.map (fun sp =>
      (sp.1, sp.2.map (fun ib => (ib.1, { ib.2 with loaded := some sd })))))

/-- unfix_dof_func(period, **unfix_dof_options) applied to every period of
every scenario. -/
def unfix_all (g : P → Kw → P) (opts : Kw) : StochPeriods P V S → StochPeriods P V S
  | .single ps => .single (ps.map (fun ib =>
      (ib.1, { ib.2 with process := g ib.2.process opts, dof_unfixed := true })))
  | .multi ss => .multi (ss.map (fun sp =>
      (sp.1, sp.2.map (fun ib =>
        (ib.1, { ib.2 with process := g ib.2.process opts, dof_unfixed := true })))))

/-- The trace entries of a loop over every period of every scenario. -/
def periods_trace (mk : Option Nat → Idx → Event S) : StochPeriods P V S → List (Event S)
  | .single ps => ps.map (fun ib => mk none ib.1)
  | .multi ss => ss.flatMap (fun sp => sp.2.map (fun ib => mk (some sp.1) ib.1))

/-- All period blocks of the model, across scenarios. -/
def all_period_blocks : StochPeriods P V S → List (SPeriodBlock P V S)
  | .single ps => ps.map (·.2)
  | .multi ss => ss.flatMap (fun sp => sp.2.map (·.2))

/-- The scenario containers: self.scenario[s].period per scenario when the
model is stochastic, self.period otherwise. -/
def scenario_containers (cfg : StochConfig Kw P V S) : StochPeriods P V S :=
  match cfg.set_scenarios with
  | some ss => .multi (ss.map (fun s => (s, build_scenario_periods cfg)))
  | none => .single (build_scenario_periods cfg)

def build_stochastic_multiperiod (cfg : StochConfig Kw P V S) : StochResult P V S :=
  let state0 : StochPeriods P V S := scenario_containers cfg
  let trace0 := periods_trace (fun s i => .builtPeriod s i) state0
  match cfg.initialization_func with
  | none => ⟨state0, trace0, none⟩   -- warning only: returned uninitialized
  | some initf =>
    let blk0 := cfg.create_process_model cfg.flowsheet_options
    let blk1 := initf blk0 cfg.initialization_options
    let (optimal, blk2) := cfg.solver blk1
    if optimal then
      let init_model := cfg.to_json blk2
      let state1 := apply_snapshot_all init_model state0
      let trace1 := trace0 ++ [.seedInstance, .seedSolve true] ++
        periods_trace (fun s i => .applySnapshot s i) state0
      match cfg.unfix_dof_func with
      | none => ⟨state1, trace1, none⟩   -- warning only: DOFs left fixed
      | some g =>
        ⟨unfix_all g cfg.unfix_dof_options state1,
         trace1 ++ periods_trace (fun s i => .unfixDof s i) state1, none⟩
    else
      ⟨state0, trace0 ++ [.seedInstance, .seedSolve false], some .assertionError⟩

/-! ## price_taker_model.py: PriceTakerModel clustering pipeline -/

/-- The global numpy RNG state.  sklearn's KMeans with random_state=None
draws from (and thereby advances) this state. -/
abbrev RNG := Nat

/-- np.random.seed(seed): overwrite the global RNG state. -/
def np_random_seed (seed : Nat) (_ : RNG) : RNG := seed

/-- The observable outputs of KMeans(n_clusters=k).fit(X): cluster centers,
one label per sample, and the inertia. -/
structure KMeansResult where
  cluster_centers : List (List ℚ)
  labels : List Nat
  inertia : ℚ
deriving Repr, DecidableEq

/-- The external k-means fit, parameterized over the data (one row per
sample), the cluster count, and the ambient RNG state it reads and
advances. -/
abbrev KMeansFit := List (List ℚ) → Nat → RNG → KMeansResult × RNG

/-- The external kneed.KneeLocator elbow detector over the (k, inertia)
curve; returns None when no knee is found. -/
abbrev KneeLoc := List Nat → List ℚ → Option Nat

/-- PriceTakerModel configuration state (seed and horizon_length). -/
structure PriceTakerModel where
  seed : Nat
  horizon_length : Nat
deriving Repr, DecidableEq

/-- Embeds the generate_daily_data while loop: i, j = i + horizon walk the
raw series, keeping the full block raw[i:j] while j ≤ len(raw), so any
trailing part shorter than horizon_length is dropped.  (The day_list
argument only labels the DataFrame columns; with horizon_length = 0 the
Python loop would never terminate, and the setter forbids 0.) -/
def generate_daily_data_loop (h : Nat) (raw : List ℚ) (i : Nat) : List (List ℚ) :=
  if _hpos : 0 < h then
    if _hle : i + h ≤ raw.length then
      ((raw.drop i).take h) :: generate_daily_data_loop h raw (i + h)
    else []
  else []
termination_by raw.length - i
decreasing_by omega

/-- generate_daily_data(raw_data, day_list): one column (here: one row) per
complete day. -/
def generate_daily_data (m : PriceTakerModel) (raw_data : List ℚ)
    (_day_list : List Nat) : List (List ℚ) :=
  generate_daily_data_loop m.horizon_length raw_data 0

/-- Embeds reconfigure_raw_data: day_list = range(1, len(raw)//horizon + 1)
and the daily data of the first scenario column (the DataFrame column
bookkeeping is elided; the input is that column's price series). -/
def reconfigure_raw_data (m : PriceTakerModel) (raw_data : List ℚ) : List (List ℚ) :=
  generate_daily_data m raw_data (List.range' 1 (raw_data.length / m.horizon_length))

/-- Embeds the inertia loop of get_optimal_n_clusters: fit k-means for each
k, threading the global RNG state through the successive fits, and collect
kmeans.inertia_. -/
def inertia_scan (fit : KMeansFit) (data : List (List ℚ)) :
    List Nat → RNG → List ℚ × RNG
  | [], rng => ([], rng)
  | k :: ks, rng =>
    let (res, rng') := fit data k rng
    let (rest, rng'') := inertia_scan fit data ks rng'
    (res.inertia :: rest, rng'')

/-- Embeds get_optimal_n_clusters(daily_data, kmin, kmax): defaults
kmin=4, kmax=30, np.random.seed(self.seed), inertia scan over
range(kmin, kmax), elbow detection via KneeLocator; the subsequent Python
comparison n_clusters + 2 >= kmax raises TypeError when the detector
returned None (None + 2 is unsupported), otherwise the pair
(n_clusters, inertia_values) is returned. -/
def get_optimal_n_clusters (fit : KMeansFit) (knee : KneeLoc) (m : PriceTakerModel)
    (daily_data : List (List ℚ)) (kmin kmax : Option Nat) (rng0 : RNG) :
    Except PyError (Nat × List ℚ) × RNG :=
  let kminv := kmin.getD 4
  let kmaxv := kmax.getD 30
  let k_values := List.range' kminv (kmaxv - kminv)
  let rng1 := np_random_seed m.seed rng0
  let (inertia_values, rng2) := inertia_scan fit daily_data k_values rng1
  let n_clusters := knee k_values inertia_values
  match n_clusters with
  | none => (.error .typeError, rng2)   -- n_clusters + 2 with n_clusters = None
  | some n => (.ok (n, inertia_values), rng2)

/-- Embeds the centroid-snapping loop: for d in range(n_clusters): for t in
range(24): if centroids[d][t] < 1e-4: centroids[d][t] = 0.  Note the inner
bound is the literal 24, not horizon_length; indexing a row shorter than 24
(horizon_length < 24) or a missing row d raises IndexError. -/
def snap_centroids (n_clusters : Nat) (centroids : List (List ℚ)) :
    Except PyError (List (List ℚ)) :=
  if n_clusters ≤ centroids.length ∧ ∀ row ∈ centroids.take n_clusters, 24 ≤ row.length then
    .ok (centroids.mapIdx (fun d row =>
      if d < n_clusters then
        row.mapIdx (fun t x => if t < 24 ∧ x < (1 / 10000 : ℚ) then 0 else x)
      else row))
  else .error .indexError

/-- Embeds the weight loop: weights_counter = np.zeros(n_clusters); for j
over labels: for k in range(n_clusters): if labels[j] == k:
weights_counter[k] += 1.  (Equivalently: each label below n_clusters bumps
its counter; setAt ignores out-of-range labels exactly as the double loop
does.) -/
def compute_weights (n_clusters : Nat) (labels : List Nat) : List ℚ :=
  labels.foldl (fun w j => setAt w j (· + 1)) (List.replicate n_clusters (0 : ℚ))

/-- Embeds cluster_lmp_data(raw_data, n_clusters, scenarios): reconfigure
the raw series, run KMeans(n_clusters).fit on the day rows (no reseeding of
the global RNG happens here; the fit reads the ambient state), snap tiny
centroid entries, and count cluster occupancy.  The returned pandas dicts
are represented by the centroid rows (lmp_data[d][t] = row (d-1), entry t)
and the weight list (weights[0][d] = entry (d-1)); the scenarios argument
is unused by the source. -/
def cluster_lmp_data (fit : KMeansFit) (m : PriceTakerModel) (raw_data : List ℚ)
    (n_clusters : Nat) (rng : RNG) :
    Except PyError (List (List ℚ) × List ℚ) × RNG :=
  let daily_data := reconfigure_raw_data m raw_data
  let (kmeans, rng') := fit daily_data n_clusters rng
  match snap_centroids n_clusters kmeans.cluster_centers with
  | .error e => (.error e, rng')
  | .ok centroids =>
    let weights_counter := compute_weights n_clusters kmeans.labels
    (.ok (centroids, weights_counter), rng')

/-! ## Event classifiers and lookup helpers -/

/-- Is this event the construction of the single throwaway seed instance? -/
def isSeedInstance : Event S → Bool
  | .seedInstance => true
  | _ => false

/-- Is this event a from_json snapshot application? -/
def isApplyEvent : Event S → Bool
  | .applySnapshot _ _ => true
  | _ => false

/-- Is this event an unfix-degrees-of-freedom call? -/
def isUnfixEvent : Event S → Bool
  | .unfixDof _ _ => true
  | _ => false

/-- Look up the period block at index i of a single-scenario (implicit
scenario) stochastic build; none when the model is scenario-indexed. -/
def stoch_block (cfg : StochConfig Kw P V S) (i : Idx) : Option (SPeriodBlock P V S) :=
  match (build_stochastic_multiperiod cfg).state with
  | .single ps => (ps.find? (fun ib => decide (ib.1 = i))).map (·.2)
  | .multi _ => none

/-- Does this (optional) block carry a link_constraints container with
exactly len constraints, as the sequential-LinkEdge claim demands? -/
def hasSeqLinkEdge (ob : Option (SPeriodBlock P V S)) (len : Nat) : Bool :=
  match ob with
  | some b =>
    match b.link_constraints with
    | some c => c.cons.length == len
    | none => false
  | none => false

/-- The (k, inertia) curve handed to KneeLocator by get_optimal_n_clusters:
k_values = range(kmin, kmax) and the inertia of each fit, threaded from the
freshly seeded RNG state. -/
def knee_curve (fit : KMeansFit) (m : PriceTakerModel) (daily_data : List (List ℚ))
    (kmin kmax : Option Nat) (rng0 : RNG) : List Nat × List ℚ :=
  let kminv := kmin.getD 4
  let kmaxv := kmax.getD 30
  let k_values := List.range' kminv (kmaxv - kminv)
  (k_values, (inertia_scan fit daily_data k_values (np_random_seed m.seed rng0)).1)

/-! ## Concrete instances used by witnesses and counterexamples -/

/-- The periodic-pair function of the concrete witness configuration. -/
def pfA : Nat → Nat → List (Nat × Nat) := fun p q => [(p, q), (q, p)]

/-- A small concrete MultiPeriodModel configuration: 3 periods, one linking
pair and two periodic pairs per edge. -/
def cfgA : MPConfig Nat Nat Nat :=
  { n_time_points := 3
    create_process_model := fun kw => kw + 100
    get_linking_variable_pairs := fun p q => [(p, q)]
    get_periodic_variable_pairs := some pfA
    empty_kwargs := 0 }

/-- The model state cfgA builds with default kwargs. -/
def sA : MPState Nat Nat := (build_multi_period_model cfgA none).state

/-- One period, no periodic coupling: the configuration of the C4
counterexample (surplus kwargs keys {0,1} against n_time_points = 1). -/
def cfgB1 : MPConfig Nat Nat Nat :=
  { cfgA with n_time_points := 1, get_periodic_variable_pairs := none }

/-- Three periods, no periodic coupling (deficit-kwargs scenario). -/
def cfgB3 : MPConfig Nat Nat Nat :=
  { cfgA with get_periodic_variable_pairs := none }

/-- A two-entry kwargs dict with keys 0 and 1. -/
def dB : List (Nat × Nat) := [(0, 5), (1, 6)]

/-- Stochastic configuration with two time points, no day/year/scenario
sets and no callbacks (the construction-only path). -/
def cfgS1 : StochConfig Nat Nat Nat Nat :=
  { n_time_points := 2
    set_days := none
    set_years := none
    set_scenarios := none
    create_process_model := fun kw => kw
    get_linking_variable_pairs := fun p q => [(p, q)]
    flowsheet_options := 0
    initialization_options := 0
    unfix_dof_options := 0
    initialization_func := none
    unfix_dof_func := none
    solver := fun p => (true, p)
    to_json := fun p => p }

/-- The seed initializer of the C9 witness configuration. -/
def fS9 : Nat → Nat → Nat := fun p _ => p + 1

/-- Stochastic configuration with two scenarios and both callbacks present;
the solver reports optimal termination. -/
def cfgS9 : StochConfig Nat Nat Nat Nat :=
  { cfgS1 with
    n_time_points := 1
    set_scenarios := some [1, 2]
    initialization_func := some fS9
    unfix_dof_func := some (fun p _ => p + 2) }

/-- PriceTakerModel with the default seed 20 and horizon 24. -/
def mPT : PriceTakerModel := ⟨20, 24⟩

/-- PriceTakerModel with horizon 25 (legal: the setter only requires > 0). -/
def mPT25 : PriceTakerModel := ⟨20, 25⟩

/-- 48 hourly prices: one day of 1 $/MWh followed by one day of 2 $/MWh. -/
def raw48 : List ℚ := List.replicate 24 1 ++ List.replicate 24 2

/-- 25 hourly prices equal to 1e-5 (a single 25-hour day). -/
def raw25 : List ℚ := List.replicate 25 (1 / 100000)

/-- A deterministic stand-in for KMeans.fit whose output satisfies the
k-means interface facts (k centers of the data's dimension, one in-range
label per sample). -/
def fitGood : KMeansFit := fun data k rng =>
  (⟨data.take k, (List.range data.length).map (fun i => i % k), 0⟩, rng + 1)

/-- A stand-in for KMeans.fit that, like sklearn with random_state=None,
depends on the ambient RNG state it consumes: both branches are valid
k-means outputs for two-day data with k = 2 (the same partition with the
clusters enumerated in either order). -/
def fitSwap : KMeansFit := fun data k rng =>
  (if rng % 2 = 0 then
    ⟨data.take k, (List.range data.length).map (fun i => i % k), 0⟩
   else
    ⟨data.reverse.take k, (List.range data.length).map (fun i => (i + 1) % k), 0⟩,
   rng + 1)

/-- A stand-in for KMeans.fit for one cluster over one day: the centroid of
a single point is that point itself. -/
def fitC7 : KMeansFit := fun data k rng => (⟨data.take k, [0], 0⟩, rng)

/-- A KneeLocator that finds no elbow (kneed returns None). -/
def kneeNone : KneeLoc := fun _ _ => none

/-- A KneeLocator that always reports an elbow at k = 5. -/
def kneeFive : KneeLoc := fun _ _ => some 5

/-! ## Claim conclusions (the per-claim properties, as Props) -/

/-- C1, non-stochastic part: in a successfully built model every block with
a successor carries, under the fixed name link_constraints, the container
of equalities of the linking pairs of the adjacent processes (one
constraint per pair, indexed 0..len-1), and the block without a successor
carries none. -/
def C1NonStochConcl (cfg : MPConfig Kw P V) (mdk : Option (List (Nat × Kw))) : Prop :=
  (∀ t b b',
      (build_multi_period_model cfg mdk).state.blocks[t]? = some b →
      (build_multi_period_model cfg mdk).state.blocks[t + 1]? = some b' →
      b.link_constraints =
        some ⟨(cfg.get_linking_variable_pairs b.process b'.process).map mkEq, true⟩) ∧
  (∀ t b,
      (build_multi_period_model cfg mdk).state.blocks[t]? = some b →
      (build_multi_period_model cfg mdk).state.blocks[t + 1]? = none →
      b.link_constraints = none)

/-- C1, stochastic part: build_stochastic_multiperiod attaches no
link_constraints container to any period block of any scenario. -/
def C1StochConcl (cfg : StochConfig Kw P V S) : Prop :=
  ∀ b ∈ all_period_blocks (build_stochastic_multiperiod cfg).state,
    b.link_constraints = none

/-- C2: one advance_time call on a well-formed state with first active
index fa succeeds and performs exactly the horizon shift: deactivate the
block at fa keeping its content, move the pointer to fa+1, append exactly
one factory-built block at index lastActive+1, attach exactly one new
sequential link container (to the pre-shift last block, from the pairs of
its process and the new process), and leave every other existing block
untouched. -/
def C2Concl (cfg : MPConfig Kw P V) (s : MPState P V) (kw : Kw) (fa : Nat) : Prop :=
  (advance_time cfg s kw).error = none ∧
  (advance_time cfg s kw).state.first_active_time = some (fa + 1) ∧
  (advance_time cfg s kw).state.blocks.length = s.blocks.length + 1 ∧
  (∀ bprev, s.blocks[fa]? = some bprev →
      (advance_time cfg s kw).state.blocks[fa]? = some (deactivate_block bprev)) ∧
  (∃ bnew, (advance_time cfg s kw).state.blocks[s.blocks.length]? = some bnew ∧
      bnew.process = cfg.create_process_model kw ∧ bnew.active = true) ∧
  (∀ blast, s.blocks[s.blocks.length - 1]? = some blast →
      ∃ b2, (advance_time cfg s kw).state.blocks[s.blocks.length - 1]? = some b2 ∧
        b2.process = blast.process ∧
        b2.link_constraints = some
          ⟨(cfg.get_linking_variable_pairs blast.process
              (cfg.create_process_model kw)).map mkEq, true⟩) ∧
  (∀ i, i ≠ fa → i ≠ s.blocks.length - 1 → i < s.blocks.length →
      (advance_time cfg s kw).state.blocks[i]? = s.blocks[i]?)

/-- C3, invariant part: starting from a successful build, every sequence of
advances succeeds, exactly one periodic container is active (the one on the
current last block), and each advance added one retained container
(deactivated, never deleted). -/
def C3Concl (cfg : MPConfig Kw P V) (mdk : Option (List (Nat × Kw))) (kws : List Kw) : Prop :=
  (advanceN cfg (build_multi_period_model cfg mdk).state kws).error = none ∧
  countActivePeriodic (advanceN cfg (build_multi_period_model cfg mdk).state kws).state = 1 ∧
  countPeriodicContainers
      (advanceN cfg (build_multi_period_model cfg mdk).state kws).state = kws.length + 1 ∧
  (∃ b c,
      (advanceN cfg (build_multi_period_model cfg mdk).state kws).state.blocks[
        (advanceN cfg (build_multi_period_model cfg mdk).state kws).state.blocks.length - 1]?
        = some b ∧
      b.periodic_constraints = some c ∧ c.active = true)

/-- C3, per-step part: one advance on a well-formed state creates the new
periodic container on the new last block from the pairs of (new process,
post-shift first-active process), and deactivates — without deleting — the
container anchored at the previous last block. -/
def C3StepConcl (cfg : MPConfig Kw P V) (s : MPState P V) (kw : Kw) (fa : Nat)
    (pf : P → P → List (V × V)) : Prop :=
  (advance_time cfg s kw).error = none ∧
  (∀ bcur, s.blocks[fa + 1]? = some bcur →
      ∃ bnew, (advance_time cfg s kw).state.blocks[s.blocks.length]? = some bnew ∧
        bnew.periodic_constraints =
          some ⟨(pf (cfg.create_process_model kw) bcur.process).map mkEq, true⟩) ∧
  (∀ blast, s.blocks[s.blocks.length - 1]? = some blast →
      ∃ b2, (advance_time cfg s kw).state.blocks[s.blocks.length - 1]? = some b2 ∧
        b2.periodic_constraints =
          blast.periodic_constraints.map (fun c => { c with active := false }))

/-- C6: a clustering run returns weights of length n_clusters whose sum is
the number of complete days floor(len(raw)/horizon), each weight counting
the raw days labelled with that cluster. -/
def C6Concl (fit : KMeansFit) (m : PriceTakerModel) (raw : List ℚ) (k : Nat)
    (rng : RNG) : Prop :=
  ∃ lmp weights rng',
    cluster_lmp_data fit m raw k rng = (.ok (lmp, weights), rng') ∧
    weights.length = k ∧
    weights.sum = ((raw.length / m.horizon_length : Nat) : ℚ) ∧
    (∀ j, j < k → weights[j]? =
      some (((fit (reconfigure_raw_data m raw) k rng).1.labels.count j : Nat) : ℚ))

/-- C9: with an initialization function supplied, exactly one throwaway
seed instance is built; a non-optimal seed solve aborts the build with the
snapshot propagated to no period, while an optimal one loads the snapshot
into every period of every scenario, all before any unfix call. -/
def C9Concl (cfg : StochConfig Kw P V S) (f : P → Kw → P) : Prop :=
  ((build_stochastic_multiperiod cfg).trace.countP isSeedInstance) = 1 ∧
  ((cfg.solver (f (cfg.create_process_model cfg.flowsheet_options)
      cfg.initialization_options)).1 = false →
    (build_stochastic_multiperiod cfg).error = some .assertionError ∧
    (∀ b ∈ all_period_blocks (build_stochastic_multiperiod cfg).state, b.loaded = none) ∧
    (∀ e ∈ (build_stochastic_multiperiod cfg).trace, isApplyEvent e = false)) ∧
  ((cfg.solver (f (cfg.create_process_model cfg.flowsheet_options)
      cfg.initialization_options)).1 = true →
    (build_stochastic_multiperiod cfg).error = none ∧
    (∀ b ∈ all_period_blocks (build_stochastic_multiperiod cfg).state,
      b.loaded = some (cfg.to_json
        (cfg.solver (f (cfg.create_process_model cfg.flowsheet_options)
          cfg.initialization_options)).2)) ∧
    (∃ n, (∀ e ∈ (build_stochastic_multiperiod cfg).trace.take n, isUnfixEvent e = false) ∧
          (∀ e ∈ (build_stochastic_multiperiod cfg).trace.drop n, isApplyEvent e = false)))

/-! # Lemmas -/

/-! ## setAt -/

theorem length_setAt (l : List α) (i : Nat) (f : α → α) :
    (setAt l i f).length = l.length := by
  induction l generalizing i with
  | nil => rfl
  | cons a t ih =>
    cases i with
    | zero => rfl
    | succ n => simp [setAt, ih]

theorem getElem?_setAt_self (l : List α) (i : Nat) (f : α → α) :
    (setAt l i f)[i]? = l[i]?.map f := by
  induction l generalizing i with
  | nil => simp [setAt]
  | cons a t ih =>
    cases i with
    | zero => simp [setAt]
    | succ n => simpa [setAt] using ih n

theorem getElem?_setAt_ne (l : List α) (i j : Nat) (f : α → α) (h : i ≠ j) :
    (setAt l i f)[j]? = l[j]? := by
  induction l generalizing i j with
  | nil => simp [setAt]
  | cons a t ih =>
    cases i with
    | zero =>
      cases j with
      | zero => exact absurd rfl h
      | succ m => simp [setAt]
    | succ n =>
      cases j with
      | zero => simp [setAt]
      | succ m => simpa [setAt] using ih n m (by omega)

theorem setAt_append_left (l1 l2 : List α) (i : Nat) (f : α → α) (h : i < l1.length) :
    setAt (l1 ++ l2) i f = setAt l1 i f ++ l2 := by
  induction l1 generalizing i with
  | nil => simp at h
  | cons a t ih =>
    cases i with
    | zero => simp [setAt]
    | succ n => simp [setAt, ih n (by simpa using h)]

theorem setAt_append_right (l1 l2 : List α) (i : Nat) (f : α → α) (h : l1.length ≤ i) :
    setAt (l1 ++ l2) i f = l1 ++ setAt l2 (i - l1.length) f := by
  induction l1 generalizing i with
  | nil => simp
  | cons a t ih =>
    cases i with
    | zero => simp at h
    | succ n => simp [setAt, ih n (by simpa using h), Nat.succ_sub_succ]

theorem countP_setAt_of_pres (l : List α) (i : Nat) (f : α → α) (p : α → Bool)
    (h : ∀ a, p (f a) = p a) :
    List.countP p (setAt l i f) = List.countP p l := by
  induction l generalizing i with
  | nil => rfl
  | cons a t ih =>
    cases i with
    | zero => simp [setAt, List.countP_cons, h]
    | succ n => simp [setAt, List.countP_cons, ih]

theorem all_setAt (l : List α) (i : Nat) (f : α → α) (q : α → Bool)
    (himp : ∀ a, q a = true → q (f a) = true) (h : l.all q = true) :
    (setAt l i f).all q = true := by
  induction l generalizing i with
  | nil => exact h
  | cons a t ih =>
    simp only [List.all_cons, Bool.and_eq_true] at h
    cases i with
    | zero => simp [setAt, himp a h.1, h.2]
    | succ n => simp [setAt, h.1, ih n h.2]

/-! ## pySorted and dictGet -/

theorem mem_insertSorted (x a : Nat) (l : List Nat) :
    a ∈ insertSorted x l ↔ a = x ∨ a ∈ l := by
  induction l with
  | nil => simp [insertSorted]
  | cons y ys ih =>
    by_cases hxy : x ≤ y
    · simp only [insertSorted, if_pos hxy, List.mem_cons]
    · simp only [insertSorted, if_neg hxy, List.mem_cons, ih]
      tauto

theorem mem_pySorted (a : Nat) (l : List Nat) : a ∈ pySorted l ↔ a ∈ l := by
  induction l with
  | nil => simp [pySorted]
  | cons x xs ih => simp [pySorted, mem_insertSorted, ih]

theorem insertSorted_of_forall_le (x : Nat) (l : List Nat) (h : ∀ y ∈ l, x ≤ y) :
    insertSorted x l = x :: l := by
  cases l with
  | nil => rfl
  | cons y ys => simp [insertSorted, h y (by simp)]

theorem pySorted_eq_of_sorted (l : List Nat) (h : List.Sorted (· ≤ ·) l) :
    pySorted l = l := by
  induction l with
  | nil => rfl
  | cons x xs ih =>
    rw [List.sorted_cons] at h
    rw [pySorted, ih h.2, insertSorted_of_forall_le x xs h.1]

theorem pySorted_range (n : Nat) : pySorted (List.range n) = List.range n :=
  pySorted_eq_of_sorted _ (List.sorted_le_range n)

theorem dictGet_isSome_iff (d : List (Nat × Kw)) (t : Nat) :
    (dictGet d t).isSome = true ↔ t ∈ d.map (·.1) := by
  induction d with
  | nil => simp [dictGet]
  | cons kv rest ih =>
    obtain ⟨k, v⟩ := kv
    by_cases hk : k = t
    · subst hk; simp [dictGet]
    · simp only [dictGet, if_neg hk, List.map_cons, List.mem_cons, ih]
      constructor
      · exact fun h2 => Or.inr h2
      · rintro (h2 | h2)
        · exact absurd h2.symm hk
        · exact h2

theorem dictGet_map_pair (ts : List Nat) (kw : Kw) (t : Nat) (h : t ∈ ts) :
    dictGet (ts.map (fun u => (u, kw))) t = some kw := by
  induction ts with
  | nil => simp at h
  | cons u us ih =>
    simp only [List.map_cons, dictGet]
    by_cases hu : u = t
    · simp [hu]
    · rw [if_neg hu]
      rcases List.mem_cons.mp h with h2 | h2
      · exact absurd h2.symm hu
      · exact ih h2

/-! ## build_blocks and link_all -/

theorem build_blocks_eq_map (cfg : MPConfig Kw P V) (d : List (Nat × Kw)) (ts : List Nat)
    (v : Nat → Kw) (h : ∀ t ∈ ts, dictGet d t = some (v t)) :
    build_blocks cfg d ts =
      (ts.map (fun t =>
        (⟨cfg.create_process_model (v t), true, none, none⟩ : ProcessBlock P V)), none) := by
  induction ts with
  | nil => rfl
  | cons t ts ih =>
    simp only [build_blocks, h t (List.mem_cons_self t ts),
      ih (fun u hu => h u (List.mem_cons_of_mem t hu)), List.map_cons]

theorem build_blocks_fail (cfg : MPConfig Kw P V) (d : List (Nat × Kw)) (t : Nat)
    (ts1 ts2 : List Nat) (h1 : ∀ u ∈ ts1, (dictGet d u).isSome = true)
    (h2 : dictGet d t = none) :
    ∃ bs : List (ProcessBlock P V),
      build_blocks cfg d (ts1 ++ t :: ts2) = (bs, some .keyError) ∧
      bs.length = ts1.length := by
  induction ts1 with
  | nil => exact ⟨[], by simp [build_blocks, h2], rfl⟩
  | cons u us ih =>
    have hu := h1 u (List.mem_cons_self u us)
    obtain ⟨vu, hvu⟩ := Option.isSome_iff_exists.mp hu
    obtain ⟨bs, hbs, hlen⟩ := ih (fun w hw => h1 w (List.mem_cons_of_mem u hw))
    refine ⟨⟨cfg.create_process_model vu, true, none, none⟩ :: bs, ?_, by simp [hlen]⟩
    simp only [List.cons_append, build_blocks, hvu, List.append_eq, hbs]

theorem length_link_all (cfg : MPConfig Kw P V) (l : List (ProcessBlock P V)) :
    (link_all cfg l).length = l.length := by
  induction l with
  | nil => rfl
  | cons b t ih =>
    cases t with
    | nil => rfl
    | cons b' rest => simpa [link_all] using ih

theorem getElem?_link_all (cfg : MPConfig Kw P V) (l : List (ProcessBlock P V)) (i : Nat) :
    (link_all cfg l)[i]? =
      match l[i]?, l[i + 1]? with
      | some b, some b' => some (create_linking_constraints b
          (cfg.get_linking_variable_pairs b.process b'.process))
      | some b, none => some b
      | none, _ => none := by
  induction l generalizing i with
  | nil => simp [link_all]
  | cons b t ih =>
    cases t with
    | nil =>
      cases i with
      | zero => simp [link_all]
      | succ n => simp [link_all]
    | cons b' rest =>
      cases i with
      | zero => simp [link_all]
      | succ n => simpa [link_all] using ih n

theorem mem_link_all_periodic_none (cfg : MPConfig Kw P V) (l : List (ProcessBlock P V))
    (h : ∀ b ∈ l, b.periodic_constraints = none) :
    ∀ b ∈ link_all cfg l, b.periodic_constraints = none := by
  induction l with
  | nil => simp [link_all]
  | cons b t ih =>
    cases t with
    | nil => simpa [link_all] using h
    | cons b' rest =>
      intro x hx
      rcases List.mem_cons.mp hx with hx | hx
      · subst hx
        simp [create_linking_constraints, h b (List.mem_cons_self b _)]
      · exact ih (fun y hy => h y (List.mem_cons_of_mem b hy)) x hx

theorem build_blocks_snd_none (cfg : MPConfig Kw P V) (d : List (Nat × Kw)) (ts : List Nat)
    (h : (build_blocks cfg d ts).2 = none) :
    (build_blocks cfg d ts).1.length = ts.length ∧
    ∀ b ∈ (build_blocks cfg d ts).1,
      b.active = true ∧ b.link_constraints = none ∧ b.periodic_constraints = none := by
  induction ts with
  | nil => simp [build_blocks]
  | cons t ts ih =>
    cases hdg : dictGet d t with
    | none => simp [build_blocks, hdg] at h
    | some kw =>
      simp only [build_blocks, hdg] at h ⊢
      obtain ⟨hlen, hmem⟩ := ih h
      refine ⟨by simpa using hlen, ?_⟩
      intro b hb
      rcases List.mem_cons.mp hb with hb | hb
      · subst hb; exact ⟨rfl, rfl, rfl⟩
      · exact hmem b hb

/-- Characterization of a successful build: some list of fresh blocks (one
per time point) is linked, and when periodic coupling is configured the
last block additionally receives a periodic container. -/
theorem build_char (cfg : MPConfig Kw P V) (d : List (Nat × Kw))
    (h : (build_with_dict cfg d).error = none) :
    ∃ blks : List (ProcessBlock P V),
      blks.length = cfg.n_time_points ∧ 0 < cfg.n_time_points ∧
      (∀ b ∈ blks, b.active = true ∧ b.link_constraints = none ∧
          b.periodic_constraints = none) ∧
      (build_with_dict cfg d).state.first_active_time = some 0 ∧
      ((cfg.get_periodic_variable_pairs = none ∧
          (build_with_dict cfg d).state.blocks = link_all cfg blks) ∨
        (∃ pf ppairs, cfg.get_periodic_variable_pairs = some pf ∧
          (build_with_dict cfg d).state.blocks =
            setAt (link_all cfg blks) (blks.length - 1)
              (fun b => create_periodic_constraints b ppairs))) := by
  by_cases hsort : pySorted (d.map (·.1)) = List.range d.length
  · rcases hbb : build_blocks cfg d (List.range cfg.n_time_points) with ⟨blks, err⟩
    have hbody : build_with_dict cfg d =
        (match err with
        | some e => ⟨⟨blks, none⟩, some e⟩
        | none =>
          match cfg.get_periodic_variable_pairs with
          | none =>
            match link_all cfg blks with
            | [] => ⟨⟨[], none⟩, some .indexError⟩
            | _ => ⟨⟨link_all cfg blks, some 0⟩, none⟩
          | some pf =>
            match (link_all cfg blks)[(link_all cfg blks).length - 1]?,
                (link_all cfg blks)[0]? with
            | some blast, some b0 =>
              ⟨⟨setAt (link_all cfg blks) ((link_all cfg blks).length - 1)
                  (fun b => create_periodic_constraints b
                    (pf blast.process b0.process)), some 0⟩, none⟩
            | _, _ => ⟨⟨link_all cfg blks, none⟩, some .keyError⟩) := by
      simp only [build_with_dict, if_pos hsort, hbb]
      cases err <;> rfl
    cases err with
    | some e => rw [hbody] at h; simp at h
    | none =>
      obtain ⟨hlen, hfresh⟩ := build_blocks_snd_none cfg d (List.range cfg.n_time_points)
        (by rw [hbb])
      rw [hbb] at hlen hfresh
      simp only [List.length_range] at hlen
      cases hper : cfg.get_periodic_variable_pairs with
      | none =>
        rw [hper] at hbody
        cases hlk : link_all cfg blks with
        | nil =>
          rw [hlk] at hbody
          rw [hbody] at h
          simp at h
        | cons x xs =>
          have hres : build_with_dict cfg d = ⟨⟨link_all cfg blks, some 0⟩, none⟩ := by
            rw [hbody, hlk]
          have hpos : 0 < cfg.n_time_points := by
            have hll := length_link_all cfg blks
            rw [hlk] at hll
            simp only [List.length_cons] at hll
            omega
          exact ⟨blks, hlen, hpos, hfresh, by rw [hres], Or.inl ⟨rfl, by rw [hres]⟩⟩
      | some pf =>
        rw [hper] at hbody
        cases hl1 : (link_all cfg blks)[(link_all cfg blks).length - 1]? with
        | none =>
          rw [hl1] at hbody
          cases hl0 : (link_all cfg blks)[0]? <;> rw [hl0] at hbody <;>
            rw [hbody] at h <;> simp at h
        | some blast =>
          rw [hl1] at hbody
          cases hl0 : (link_all cfg blks)[0]? with
          | none =>
            rw [hl0] at hbody
            rw [hbody] at h
            simp at h
          | some b0 =>
            rw [hl0] at hbody
            have hpos : 0 < cfg.n_time_points := by
              by_contra hz
              have hz0 : (link_all cfg blks).length = 0 := by
                rw [length_link_all, hlen]; omega
              rw [List.getElem?_eq_none (by omega)] at hl0
              exact Option.noConfusion hl0
            refine ⟨blks, hlen, hpos, hfresh, by rw [hbody],
              Or.inr ⟨pf, pf blast.process b0.process, rfl, ?_⟩⟩
            rw [hbody]
            simp only [length_link_all, hlen]
  · exfalso
    simp only [build_with_dict, if_neg hsort] at h
    exact Option.noConfusion h

/-! ## advance_time characterization -/

theorem advance_time_eq_noper (cfg : MPConfig Kw P V) (s : MPState P V) (kw : Kw)
    (fa : Nat) (blast : ProcessBlock P V)
    (hfa : s.first_active_time = some fa)
    (hlt : fa + 1 < s.blocks.length)
    (hlast : s.blocks[s.blocks.length - 1]? = some blast)
    (hper : cfg.get_periodic_variable_pairs = none) :
    advance_time cfg s kw =
      ⟨⟨setAt (setAt s.blocks fa deactivate_block) (s.blocks.length - 1)
          (fun b => create_linking_constraints b
            (cfg.get_linking_variable_pairs blast.process (cfg.create_process_model kw)))
        ++ [⟨cfg.create_process_model kw, true, none, none⟩], some (fa + 1)⟩, none⟩ := by
  have hlen1 : (setAt s.blocks fa deactivate_block).length = s.blocks.length :=
    length_setAt _ _ _
  have hne : fa ≠ s.blocks.length - 1 := by omega
  have h0 : (setAt s.blocks fa deactivate_block
      ++ [(⟨cfg.create_process_model kw, true, none, none⟩ : ProcessBlock P V)])[
        s.blocks.length - 1]? = some blast := by
    rw [List.getElem?_append, if_pos (by rw [hlen1]; omega),
      getElem?_setAt_ne _ _ _ _ hne, hlast]
  have h1 : (setAt s.blocks fa deactivate_block
      ++ [(⟨cfg.create_process_model kw, true, none, none⟩ : ProcessBlock P V)])[
        s.blocks.length - 1 + 1]? =
      some ⟨cfg.create_process_model kw, true, none, none⟩ := by
    have he : s.blocks.length - 1 + 1 = (setAt s.blocks fa deactivate_block).length := by
      rw [hlen1]; omega
    rw [he, List.getElem?_concat_length]
  simp only [advance_time, hfa]
  rw [if_pos hlt]
  simp only [h0, h1, hper]
  rw [setAt_append_left _ _ _ _ (by rw [hlen1]; omega)]

theorem advance_time_eq_per (cfg : MPConfig Kw P V) (s : MPState P V) (kw : Kw)
    (fa : Nat) (blast bcur : ProcessBlock P V) (pf : P → P → List (V × V))
    (hfa : s.first_active_time = some fa)
    (hlt : fa + 1 < s.blocks.length)
    (hlast : s.blocks[s.blocks.length - 1]? = some blast)
    (hcur : s.blocks[fa + 1]? = some bcur)
    (hper : cfg.get_periodic_variable_pairs = some pf)
    (hpc : blast.periodic_constraints.isSome = true) :
    advance_time cfg s kw =
      ⟨⟨setAt (setAt (setAt s.blocks fa deactivate_block) (s.blocks.length - 1)
            (fun b => create_linking_constraints b
              (cfg.get_linking_variable_pairs blast.process (cfg.create_process_model kw))))
          (s.blocks.length - 1) deactivate_periodic
        ++ [⟨cfg.create_process_model kw, true, none,
              some ⟨(pf (cfg.create_process_model kw) bcur.process).map mkEq, true⟩⟩],
        some (fa + 1)⟩, none⟩ := by
  have hlen1 : (setAt s.blocks fa deactivate_block).length = s.blocks.length :=
    length_setAt _ _ _
  have hne : fa ≠ s.blocks.length - 1 := by omega
  have h0 : (setAt s.blocks fa deactivate_block
      ++ [(⟨cfg.create_process_model kw, true, none, none⟩ : ProcessBlock P V)])[
        s.blocks.length - 1]? = some blast := by
    rw [List.getElem?_append, if_pos (by rw [hlen1]; omega),
      getElem?_setAt_ne _ _ _ _ hne, hlast]
  have h1 : (setAt s.blocks fa deactivate_block
      ++ [(⟨cfg.create_process_model kw, true, none, none⟩ : ProcessBlock P V)])[
        s.blocks.length - 1 + 1]? =
      some ⟨cfg.create_process_model kw, true, none, none⟩ := by
    have he : s.blocks.length - 1 + 1 = (setAt s.blocks fa deactivate_block).length := by
      rw [hlen1]; omega
    rw [he, List.getElem?_concat_length]
  -- abbreviations for the linked prefix and the fresh block
  set nb : ProcessBlock P V := ⟨cfg.create_process_model kw, true, none, none⟩ with hnb
  set L2 : List (ProcessBlock P V) :=
    setAt (setAt s.blocks fa deactivate_block) (s.blocks.length - 1)
      (fun b => create_linking_constraints b
        (cfg.get_linking_variable_pairs blast.process (cfg.create_process_model kw)))
    with hL2
  have hb2 : setAt (setAt s.blocks fa deactivate_block ++ [nb]) (s.blocks.length - 1)
        (fun b => create_linking_constraints b
          (cfg.get_linking_variable_pairs blast.process nb.process)) =
      L2 ++ [nb] :=
    setAt_append_left _ _ _ _ (by rw [hlen1]; omega)
  have hlen2 : L2.length = s.blocks.length := by
    rw [hL2, length_setAt, hlen1]
  -- the post-shift first-active block read back from the linked list
  have hcur2 : ∃ bc2 : ProcessBlock P V,
      (L2 ++ [nb])[fa + 1]? = some bc2 ∧ bc2.process = bcur.process := by
    rw [List.getElem?_append, if_pos (by rw [hlen2]; omega), hL2]
    by_cases hfc : fa + 1 = s.blocks.length - 1
    · refine ⟨create_linking_constraints blast
        (cfg.get_linking_variable_pairs blast.process (cfg.create_process_model kw)), ?_, ?_⟩
      · rw [hfc, getElem?_setAt_self, getElem?_setAt_ne _ _ _ _ hne, hlast]
        rfl
      · have hbb : bcur = blast := by
          rw [hfc] at hcur
          rw [hcur] at hlast
          exact Option.some.inj hlast
        rw [hbb]
        rfl
    · refine ⟨bcur, ?_, rfl⟩
      rw [getElem?_setAt_ne _ _ _ _ (fun he => hfc he.symm),
        getElem?_setAt_ne _ _ _ _ (by omega), hcur]
  obtain ⟨bc2, hbc2, hbc2p⟩ := hcur2
  have h3 : (L2 ++ [nb])[s.blocks.length - 1 + 1]? = some nb := by
    have he : s.blocks.length - 1 + 1 = L2.length := by rw [hlen2]; omega
    rw [he, List.getElem?_concat_length]
  have h4 : ∀ g : ProcessBlock P V → ProcessBlock P V,
      setAt (L2 ++ [nb]) (s.blocks.length - 1 + 1) g = L2 ++ [g nb] := by
    intro g
    rw [setAt_append_right _ _ _ _ (by rw [hlen2]; omega)]
    have hidx : s.blocks.length - 1 + 1 - L2.length = 0 := by rw [hlen2]; omega
    rw [hidx]
    rfl
  have h5 : ∀ x : ProcessBlock P V,
      (L2 ++ [x])[s.blocks.length - 1]? = some (create_linking_constraints blast
        (cfg.get_linking_variable_pairs blast.process (cfg.create_process_model kw))) := by
    intro x
    rw [List.getElem?_append, if_pos (by rw [hlen2]; omega), hL2, getElem?_setAt_self,
      getElem?_setAt_ne _ _ _ _ hne, hlast]
    rfl
  obtain ⟨pc, hpceq⟩ := Option.isSome_iff_exists.mp hpc
  have h6 : (create_linking_constraints blast
      (cfg.get_linking_variable_pairs blast.process
        (cfg.create_process_model kw))).periodic_constraints = some pc := by
    simpa [create_linking_constraints] using hpceq
  simp only [advance_time, hfa]
  rw [if_pos hlt]
  simp only [h0, h1, hper, ← hnb, hb2, hbc2, h3, h4, h5, h6]
  rw [setAt_append_left _ _ _ _ (by rw [hlen2]; omega)]
  rw [hbc2p]
  rfl

/-! ## Well-formedness -/

theorem wfB_spec (cfg : MPConfig Kw P V) (s : MPState P V) (h : wfB cfg s = true) :
    ∃ fa, s.first_active_time = some fa ∧ fa + 1 < s.blocks.length ∧
    ∃ blast, s.blocks[s.blocks.length - 1]? = some blast ∧
      blast.link_constraints = none ∧
      (∀ pf, cfg.get_periodic_variable_pairs = some pf →
        (∃ c, blast.periodic_constraints = some c ∧ c.active = true) ∧
        ∀ b ∈ s.blocks.dropLast, ∀ c, b.periodic_constraints = some c →
          c.active = false) := by
  simp only [wfB, Bool.and_eq_true] at h
  obtain ⟨⟨hA, hB⟩, hC⟩ := h
  cases hfa : s.first_active_time with
  | none => rw [hfa] at hA; exact absurd hA (by simp)
  | some fa =>
    rw [hfa] at hA
    simp only [decide_eq_true_eq] at hA
    cases hlast : s.blocks[s.blocks.length - 1]? with
    | none => rw [hlast] at hB; exact absurd hB (by simp)
    | some blast =>
      rw [hlast] at hB hC
      simp only [Option.isNone_iff_eq_none] at hB
      refine ⟨fa, rfl, hA, blast, rfl, hB, ?_⟩
      intro pf hpf
      rw [hpf] at hC
      simp only [Option.isSome_some, if_true, Bool.and_eq_true] at hC
      obtain ⟨hC1, hC2⟩ := hC
      constructor
      · cases hpc : blast.periodic_constraints with
        | none => rw [hpc] at hC1; exact absurd hC1 (by simp)
        | some c => rw [hpc] at hC1; exact ⟨c, rfl, hC1⟩
      · intro b hb c hc
        have := (List.all_eq_true.mp hC2) b hb
        rw [hc] at this
        simpa using this

theorem wfB_intro (cfg : MPConfig Kw P V) (s : MPState P V) (fa : Nat)
    (blast : ProcessBlock P V)
    (hfa : s.first_active_time = some fa) (hlt : fa + 1 < s.blocks.length)
    (hlast : s.blocks[s.blocks.length - 1]? = some blast)
    (hlink : blast.link_constraints = none)
    (hperc : ∀ pf, cfg.get_periodic_variable_pairs = some pf →
        (∃ c, blast.periodic_constraints = some c ∧ c.active = true) ∧
        ∀ b ∈ s.blocks.dropLast, ∀ c, b.periodic_constraints = some c →
          c.active = false) :
    wfB cfg s = true := by
  simp only [wfB, Bool.and_eq_true, hfa, hlast]
  refine ⟨⟨by simpa using hlt, by simp [hlink]⟩, ?_⟩
  cases hper : cfg.get_periodic_variable_pairs with
  | none => simp
  | some pf =>
    obtain ⟨⟨c, hc, hca⟩, hrest⟩ := hperc pf hper
    simp only [Option.isSome_some, if_true, Bool.and_eq_true]
    refine ⟨by rw [hc]; exact hca, List.all_eq_true.mpr ?_⟩
    intro b hb
    cases hpcb : b.periodic_constraints with
    | none => simp
    | some cb => simpa using hrest b hb cb hpcb

theorem mem_setAt (l : List α) (i : Nat) (f : α → α) (b : α) (hb : b ∈ setAt l i f) :
    b ∈ l ∨ ∃ a ∈ l, b = f a := by
  induction l generalizing i with
  | nil => simp [setAt] at hb
  | cons a t ih =>
    cases i with
    | zero =>
      rcases List.mem_cons.mp hb with hb | hb
      · exact Or.inr ⟨a, List.mem_cons_self a t, hb⟩
      · exact Or.inl (List.mem_cons_of_mem a hb)
    | succ n =>
      rcases List.mem_cons.mp hb with hb | hb
      · exact Or.inl (hb ▸ List.mem_cons_self a t)
      · rcases ih n hb with h | ⟨x, hx, hfx⟩
        · exact Or.inl (List.mem_cons_of_mem a h)
        · exact Or.inr ⟨x, List.mem_cons_of_mem a hx, hfx⟩

theorem eq_dropLast_concat (l : List α) (a : α) (h : l[l.length - 1]? = some a) :
    l = l.dropLast ++ [a] := by
  rcases List.eq_nil_or_concat l with rfl | ⟨L, b, rfl⟩
  · simp at h
  · rw [List.concat_eq_append] at h ⊢
    have hlen : (L ++ [b]).length - 1 = L.length := by simp
    rw [hlen, List.getElem?_concat_length] at h
    have hba := Option.some.inj h
    subst hba
    rw [List.dropLast_concat]

/-- With periodic coupling configured, a well-formed state has exactly one
active periodic container. -/
theorem wf_count_active (cfg : MPConfig Kw P V) (s : MPState P V)
    (hwf : wfB cfg s = true) (pf : P → P → List (V × V))
    (hper : cfg.get_periodic_variable_pairs = some pf) :
    countActivePeriodic s = 1 ∧
    (∃ b c, s.blocks[s.blocks.length - 1]? = some b ∧
      b.periodic_constraints = some c ∧ c.active = true) := by
  obtain ⟨fa, hfa, hlt, blast, hlast, hlink, hperc⟩ := wfB_spec cfg s hwf
  obtain ⟨⟨c, hc, hca⟩, hinact⟩ := hperc pf hper
  have hdec := eq_dropLast_concat s.blocks blast hlast
  refine ⟨?_, blast, c, hlast, hc, hca⟩
  rw [countActivePeriodic, hdec, List.countP_append]
  have h0 : List.countP (fun b : ProcessBlock P V =>
      match b.periodic_constraints with
      | some c => c.active
      | none => false) s.blocks.dropLast = 0 := by
    rw [List.countP_eq_zero]
    intro b hb
    cases hpcb : b.periodic_constraints with
    | none => simp [hpcb]
    | some cb => simp [hpcb, hinact b hb cb hpcb]
  rw [h0]
  simp [hc, hca]

theorem setAt_concat_length (l : List α) (x : α) (f : α → α) :
    setAt (l ++ [x]) l.length f = l ++ [f x] := by
  rw [setAt_append_right _ _ _ _ (Nat.le_refl _), Nat.sub_self]
  rfl

theorem setAt_chain_concat (SDL : List α) (blast : α) (fa : Nat) (d g h : α → α)
    (hfa : fa < SDL.length) :
    setAt (setAt (setAt (SDL ++ [blast]) fa d) ((SDL ++ [blast]).length - 1) g)
      ((SDL ++ [blast]).length - 1) h =
    setAt SDL fa d ++ [h (g blast)] := by
  have hlen : (SDL ++ [blast]).length - 1 = SDL.length := by simp
  rw [hlen, setAt_append_left _ _ _ _ hfa]
  have h1 : (setAt SDL fa d).length = SDL.length := length_setAt _ _ _
  rw [← h1, setAt_concat_length, setAt_concat_length]

theorem setAt_pair_concat (SDL : List α) (blast : α) (fa : Nat) (d g : α → α)
    (hfa : fa < SDL.length) :
    setAt (setAt (SDL ++ [blast]) fa d) ((SDL ++ [blast]).length - 1) g =
    setAt SDL fa d ++ [g blast] := by
  have hlen : (SDL ++ [blast]).length - 1 = SDL.length := by simp
  rw [hlen, setAt_append_left _ _ _ _ hfa]
  have h1 : (setAt SDL fa d).length = SDL.length := length_setAt _ _ _
  rw [← h1, setAt_concat_length]

/-- One advance on a well-formed state succeeds, preserves well-formedness
and adds one periodic container exactly when periodic coupling is
configured. -/
theorem advance_step (cfg : MPConfig Kw P V) (s : MPState P V) (kw : Kw)
    (hwf : wfB cfg s = true) :
    (advance_time cfg s kw).error = none ∧
    wfB cfg (advance_time cfg s kw).state = true ∧
    countPeriodicContainers (advance_time cfg s kw).state =
      countPeriodicContainers s +
        (if cfg.get_periodic_variable_pairs.isSome then 1 else 0) := by
  obtain ⟨fa, hfa, hlt, blast, hlast, hlink, hperc⟩ := wfB_spec cfg s hwf
  have hpres_d : ∀ b : ProcessBlock P V,
      (deactivate_block b).periodic_constraints.isSome = b.periodic_constraints.isSome :=
    fun b => rfl
  have hpres_l : ∀ (pairs : List (V × V)) (b : ProcessBlock P V),
      (create_linking_constraints b pairs).periodic_constraints.isSome =
        b.periodic_constraints.isSome := fun _ _ => rfl
  have hdec := eq_dropLast_concat s.blocks blast hlast
  have hfalt : fa < s.blocks.dropLast.length := by
    rw [List.length_dropLast]; omega
  cases hper : cfg.get_periodic_variable_pairs with
  | none =>
    rw [advance_time_eq_noper cfg s kw fa blast hfa hlt hlast hper]
    have hblocks : setAt (setAt s.blocks fa deactivate_block) (s.blocks.length - 1)
        (fun b => create_linking_constraints b
          (cfg.get_linking_variable_pairs blast.process (cfg.create_process_model kw))) =
        setAt s.blocks.dropLast fa deactivate_block ++
          [create_linking_constraints blast
            (cfg.get_linking_variable_pairs blast.process (cfg.create_process_model kw))] := by
      conv_lhs => rw [hdec]
      exact setAt_pair_concat _ _ _ _ _ hfalt
    rw [hblocks]
    refine ⟨rfl, ?_, ?_⟩
    · -- well-formedness of the advanced state
      refine wfB_intro cfg _ (fa + 1) ⟨cfg.create_process_model kw, true, none, none⟩
        rfl ?_ ?_ rfl ?_
      · simp only [List.length_append, length_setAt, List.length_dropLast,
          List.length_singleton]
        omega
      · have hl : ((setAt s.blocks.dropLast fa deactivate_block ++
            [create_linking_constraints blast
              (cfg.get_linking_variable_pairs blast.process
                (cfg.create_process_model kw))]) ++
            [(⟨cfg.create_process_model kw, true, none, none⟩ :
                ProcessBlock P V)]).length - 1 =
            (setAt s.blocks.dropLast fa deactivate_block ++
              [create_linking_constraints blast
                (cfg.get_linking_variable_pairs blast.process
                  (cfg.create_process_model kw))]).length := by
          simp
        rw [hl, List.getElem?_concat_length]
      · intro pf hpf
        rw [hpf] at hper
        exact Option.noConfusion hper
    · -- container count unchanged
      simp only [Option.isSome_none, Bool.false_eq_true, if_false, Nat.add_zero]
      conv_rhs => rw [countPeriodicContainers, hdec, List.countP_append]
      rw [countPeriodicContainers, List.countP_append, List.countP_append,
        countP_setAt_of_pres _ _ _ _ (fun b => by rw [hpres_d])]
      simp [create_linking_constraints, List.countP_cons]
  | some pf =>
    obtain ⟨⟨c, hc, hca⟩, hinact⟩ := hperc pf hper
    obtain ⟨bcur, hbcur⟩ : ∃ bc, s.blocks[fa + 1]? = some bc :=
      ⟨s.blocks[fa + 1], List.getElem?_eq_getElem hlt⟩
    have hpc : blast.periodic_constraints.isSome = true := by rw [hc]; rfl
    rw [advance_time_eq_per cfg s kw fa blast bcur pf hfa hlt hlast hbcur hper hpc]
    have hblocks : setAt (setAt (setAt s.blocks fa deactivate_block)
        (s.blocks.length - 1)
        (fun b => create_linking_constraints b
          (cfg.get_linking_variable_pairs blast.process (cfg.create_process_model kw))))
        (s.blocks.length - 1) deactivate_periodic =
        setAt s.blocks.dropLast fa deactivate_block ++
          [deactivate_periodic (create_linking_constraints blast
            (cfg.get_linking_variable_pairs blast.process
              (cfg.create_process_model kw)))] := by
      conv_lhs => rw [hdec]
      exact setAt_chain_concat _ _ _ _ _ _ hfalt
    rw [hblocks]
    refine ⟨rfl, ?_, ?_⟩
    · -- well-formedness of the advanced state
      refine wfB_intro cfg _ (fa + 1)
        ⟨cfg.create_process_model kw, true, none,
          some ⟨(pf (cfg.create_process_model kw) bcur.process).map mkEq, true⟩⟩
        rfl ?_ ?_ rfl ?_
      · simp only [List.length_append, length_setAt, List.length_dropLast,
          List.length_singleton]
        omega
      · have hl : ((setAt s.blocks.dropLast fa deactivate_block ++
            [deactivate_periodic (create_linking_constraints blast
              (cfg.get_linking_variable_pairs blast.process
                (cfg.create_process_model kw)))]) ++
            [(⟨cfg.create_process_model kw, true, none,
              some ⟨(pf (cfg.create_process_model kw) bcur.process).map mkEq, true⟩⟩ :
                ProcessBlock P V)]).length - 1 =
            (setAt s.blocks.dropLast fa deactivate_block ++
              [deactivate_periodic (create_linking_constraints blast
                (cfg.get_linking_variable_pairs blast.process
                  (cfg.create_process_model kw)))]).length := by
          simp
        rw [hl, List.getElem?_concat_length]
      · intro pf' hpf'
        rw [hper] at hpf'
        have hpfeq := Option.some.inj hpf'
        subst hpfeq
        refine ⟨⟨_, rfl, rfl⟩, ?_⟩
        intro b hb cb hcb
        rw [List.dropLast_concat] at hb
        rcases List.mem_append.mp hb with hb | hb
        · rcases mem_setAt _ _ _ _ hb with hb | ⟨a, ha, rfl⟩
          · exact hinact b hb cb hcb
          · exact hinact a ha cb hcb
        · rcases List.mem_singleton.mp hb with rfl
          simp only [deactivate_periodic, create_linking_constraints] at hcb
          rw [hc] at hcb
          simp only [Option.map_some'] at hcb
          have hcbe := Option.some.inj hcb
          rw [← hcbe]
    · -- one container added, the old one retained
      simp only [Option.isSome_some, if_true]
      conv_rhs => rw [countPeriodicContainers, hdec, List.countP_append]
      rw [countPeriodicContainers, List.countP_append, List.countP_append,
        countP_setAt_of_pres _ _ _ _ (fun b => by rw [hpres_d])]
      simp [deactivate_periodic, create_linking_constraints, hc]

/-- A successful build with at least two time points yields a well-formed
state, first-active pointer 0, and (with periodic coupling) exactly one
periodic container. -/
theorem wf_build (cfg : MPConfig Kw P V) (d : List (Nat × Kw))
    (h : (build_with_dict cfg d).error = none) (hn : 2 ≤ cfg.n_time_points) :
    wfB cfg (build_with_dict cfg d).state = true ∧
    (build_with_dict cfg d).state.first_active_time = some 0 ∧
    (build_with_dict cfg d).state.blocks.length = cfg.n_time_points ∧
    (cfg.get_periodic_variable_pairs.isSome = true →
      countPeriodicContainers (build_with_dict cfg d).state = 1) := by
  obtain ⟨blks, hlen, hpos, hfresh, hfa, hdisj⟩ := build_char cfg d h
  have hl : (link_all cfg blks).length = blks.length := length_link_all cfg blks
  -- the last linked block is the untouched last fresh block
  obtain ⟨bl, hbeq⟩ : ∃ b, blks[blks.length - 1]? = some b :=
    ⟨_, List.getElem?_eq_getElem (by omega)⟩
  have hblm : bl ∈ blks := List.mem_iff_getElem?.mpr ⟨_, hbeq⟩
  have hnone : blks[blks.length - 1 + 1]? = none := List.getElem?_eq_none (by omega)
  have hlastl : (link_all cfg blks)[blks.length - 1]? = some bl := by
    have hg := getElem?_link_all cfg blks (blks.length - 1)
    rw [hbeq, hnone] at hg
    exact hg
  have hlpn : ∀ b ∈ link_all cfg blks, b.periodic_constraints = none :=
    mem_link_all_periodic_none cfg blks (fun b hb => (hfresh b hb).2.2)
  rcases hdisj with ⟨hper, hblocks⟩ | ⟨pf, ppairs, hper, hblocks⟩
  · -- no periodic coupling
    refine ⟨wfB_intro cfg _ 0 bl hfa ?_ ?_ (hfresh bl hblm).2.1 ?_, hfa, ?_, ?_⟩
    · rw [hblocks, hl, hlen]; omega
    · rw [hblocks, hl, hlen, ← hlen]; exact hlastl
    · intro pf hpf; rw [hpf] at hper; exact Option.noConfusion hper
    · rw [hblocks, hl, hlen]
    · intro hps; rw [hper] at hps; exact absurd hps (by simp)
  · -- periodic coupling: the last block carries the one active container
    have hdecl := eq_dropLast_concat (link_all cfg blks) bl (by rw [hl]; exact hlastl)
    have hdll : (link_all cfg blks).dropLast.length = blks.length - 1 := by
      rw [List.length_dropLast, hl]
    have hset : setAt (link_all cfg blks) (blks.length - 1)
        (fun b => create_periodic_constraints b ppairs) =
        (link_all cfg blks).dropLast ++ [create_periodic_constraints bl ppairs] := by
      conv_lhs => rw [hdecl]
      rw [← hdll, setAt_concat_length]
    have hlast2 : (build_with_dict cfg d).state.blocks[
        (build_with_dict cfg d).state.blocks.length - 1]? =
        some (create_periodic_constraints bl ppairs) := by
      rw [hblocks, hset]
      have hli : ((link_all cfg blks).dropLast ++
          [create_periodic_constraints bl ppairs]).length - 1 =
          (link_all cfg blks).dropLast.length := by simp
      rw [hli, List.getElem?_concat_length]
    refine ⟨wfB_intro cfg _ 0 (create_periodic_constraints bl ppairs) hfa ?_ hlast2
      ?_ ?_, hfa, ?_, ?_⟩
    · rw [hblocks, length_setAt, hl, hlen]; omega
    · have := (hfresh bl hblm).2.1
      simpa [create_periodic_constraints] using this
    · intro pf' _
      refine ⟨⟨⟨ppairs.map mkEq, true⟩, rfl, rfl⟩, ?_⟩
      intro b hb cb hcb
      exfalso
      rw [hblocks, hset, List.dropLast_concat] at hb
      have hbn := hlpn b (List.mem_of_mem_dropLast hb)
      rw [hbn] at hcb
      exact Option.noConfusion hcb
    · rw [hblocks, length_setAt, hl, hlen]
    · intro _
      rw [countPeriodicContainers, hblocks, hset, List.countP_append]
      have h0 : List.countP (fun b : ProcessBlock P V => b.periodic_constraints.isSome)
          (link_all cfg blks).dropLast = 0 := by
        rw [List.countP_eq_zero]
        intro b hb
        simp [hlpn b (List.mem_of_mem_dropLast hb)]
      rw [h0]
      simp [create_periodic_constraints]

theorem advanceN_spec (cfg : MPConfig Kw P V) (s : MPState P V) (kws : List Kw)
    (hwf : wfB cfg s = true) :
    (advanceN cfg s kws).error = none ∧
    wfB cfg (advanceN cfg s kws).state = true ∧
    countPeriodicContainers (advanceN cfg s kws).state =
      countPeriodicContainers s +
        kws.length * (if cfg.get_periodic_variable_pairs.isSome then 1 else 0) := by
  induction kws generalizing s with
  | nil => simpa [advanceN] using hwf
  | cons kw kws ih =>
    obtain ⟨he, hw, hcount⟩ := advance_step cfg s kw hwf
    have hred : advanceN cfg s (kw :: kws) =
        advanceN cfg (advance_time cfg s kw).state kws := by
      simp only [advanceN, he]
    rw [hred]
    obtain ⟨he', hw', hcount'⟩ := ih _ hw
    refine ⟨he', hw', ?_⟩
    rw [hcount', hcount]
    simp only [List.length_cons]
    ring

/-- The C2 horizon-shift contract holds for every advance on a well-formed
state. -/
theorem advance_C2 (cfg : MPConfig Kw P V) (s : MPState P V) (kw : Kw) (fa : Nat)
    (hwf : wfB cfg s = true) (hfa : s.first_active_time = some fa) :
    C2Concl cfg s kw fa := by
  obtain ⟨fa', hfa', hlt', blast, hlast, hlink, hperc⟩ := wfB_spec cfg s hwf
  have hfaeq : fa' = fa := by rw [hfa] at hfa'; exact (Option.some.inj hfa').symm
  subst hfaeq
  have hne : fa' ≠ s.blocks.length - 1 := by omega
  cases hper : cfg.get_periodic_variable_pairs with
  | none =>
    rw [C2Concl, advance_time_eq_noper cfg s kw fa' blast hfa hlt' hlast hper]
    set L : List (ProcessBlock P V) :=
      setAt (setAt s.blocks fa' deactivate_block) (s.blocks.length - 1)
        (fun b => create_linking_constraints b
          (cfg.get_linking_variable_pairs blast.process (cfg.create_process_model kw)))
      with hL
    have hLlen : L.length = s.blocks.length := by rw [hL, length_setAt, length_setAt]
    refine ⟨rfl, rfl, by simp [hLlen], ?_, ?_, ?_, ?_⟩
    · intro bprev hbprev
      rw [List.getElem?_append, if_pos (by rw [hLlen]; omega), hL,
        getElem?_setAt_ne _ _ _ _ (Ne.symm hne), getElem?_setAt_self, hbprev]
      rfl
    · refine ⟨⟨cfg.create_process_model kw, true, none, none⟩, ?_, rfl, rfl⟩
      rw [← hLlen, List.getElem?_concat_length]
    · intro blast2 hblast2
      have hbe : blast2 = blast := by
        rw [hblast2] at hlast; exact Option.some.inj hlast
      subst hbe
      refine ⟨create_linking_constraints blast2
        (cfg.get_linking_variable_pairs blast2.process (cfg.create_process_model kw)),
        ?_, rfl, rfl⟩
      rw [List.getElem?_append, if_pos (by rw [hLlen]; omega), hL,
        getElem?_setAt_self, getElem?_setAt_ne _ _ _ _ hne, hblast2]
      rfl
    · intro i hifa hilast hilt
      rw [List.getElem?_append, if_pos (by rw [hLlen]; omega), hL,
        getElem?_setAt_ne _ _ _ _ (fun he => hilast he.symm),
        getElem?_setAt_ne _ _ _ _ (fun he => hifa he.symm)]
  | some pf =>
    obtain ⟨⟨c, hc, hca⟩, hinact⟩ := hperc pf hper
    obtain ⟨bcur, hbcur⟩ : ∃ bc, s.blocks[fa' + 1]? = some bc :=
      ⟨s.blocks[fa' + 1], List.getElem?_eq_getElem hlt'⟩
    have hpc : blast.periodic_constraints.isSome = true := by rw [hc]; rfl
    rw [C2Concl, advance_time_eq_per cfg s kw fa' blast bcur pf hfa hlt' hlast hbcur
      hper hpc]
    set L : List (ProcessBlock P V) :=
      setAt (setAt (setAt s.blocks fa' deactivate_block) (s.blocks.length - 1)
        (fun b => create_linking_constraints b
          (cfg.get_linking_variable_pairs blast.process (cfg.create_process_model kw))))
        (s.blocks.length - 1) deactivate_periodic
      with hL
    have hLlen : L.length = s.blocks.length := by
      rw [hL, length_setAt, length_setAt, length_setAt]
    refine ⟨rfl, rfl, by simp [hLlen], ?_, ?_, ?_, ?_⟩
    · intro bprev hbprev
      rw [List.getElem?_append, if_pos (by rw [hLlen]; omega), hL,
        getElem?_setAt_ne _ _ _ _ (Ne.symm hne),
        getElem?_setAt_ne _ _ _ _ (Ne.symm hne), getElem?_setAt_self, hbprev]
      rfl
    · refine ⟨⟨cfg.create_process_model kw, true, none,
        some ⟨(pf (cfg.create_process_model kw) bcur.process).map mkEq, true⟩⟩,
        ?_, rfl, rfl⟩
      rw [← hLlen, List.getElem?_concat_length]
    · intro blast2 hblast2
      have hbe : blast2 = blast := by
        rw [hblast2] at hlast; exact Option.some.inj hlast
      subst hbe
      refine ⟨deactivate_periodic (create_linking_constraints blast2
        (cfg.get_linking_variable_pairs blast2.process (cfg.create_process_model kw))),
        ?_, rfl, rfl⟩
      rw [List.getElem?_append, if_pos (by rw [hLlen]; omega), hL,
        getElem?_setAt_self, getElem?_setAt_self,
        getElem?_setAt_ne _ _ _ _ hne, hblast2]
      rfl
    · intro i hifa hilast hilt
      rw [List.getElem?_append, if_pos (by rw [hLlen]; omega), hL,
        getElem?_setAt_ne _ _ _ _ (fun he => hilast he.symm),
        getElem?_setAt_ne _ _ _ _ (fun he => hilast he.symm),
        getElem?_setAt_ne _ _ _ _ (fun he => hifa he.symm)]

/-- The C3 per-advance contract holds for every advance on a well-formed
state with periodic coupling configured. -/
theorem advance_C3step (cfg : MPConfig Kw P V) (s : MPState P V) (kw : Kw) (fa : Nat)
    (pf : P → P → List (V × V)) (hwf : wfB cfg s = true)
    (hfa : s.first_active_time = some fa)
    (hper : cfg.get_periodic_variable_pairs = some pf) :
    C3StepConcl cfg s kw fa pf := by
  obtain ⟨fa', hfa', hlt', blast, hlast, hlink, hperc⟩ := wfB_spec cfg s hwf
  have hfaeq : fa' = fa := by rw [hfa] at hfa'; exact (Option.some.inj hfa').symm
  subst hfaeq
  have hne : fa' ≠ s.blocks.length - 1 := by omega
  obtain ⟨⟨c, hc, hca⟩, hinact⟩ := hperc pf hper
  obtain ⟨bcur, hbcur⟩ : ∃ bc, s.blocks[fa' + 1]? = some bc :=
    ⟨s.blocks[fa' + 1], List.getElem?_eq_getElem hlt'⟩
  have hpc : blast.periodic_constraints.isSome = true := by rw [hc]; rfl
  rw [C3StepConcl, advance_time_eq_per cfg s kw fa' blast bcur pf hfa hlt' hlast hbcur
    hper hpc]
  set L : List (ProcessBlock P V) :=
    setAt (setAt (setAt s.blocks fa' deactivate_block) (s.blocks.length - 1)
      (fun b => create_linking_constraints b
        (cfg.get_linking_variable_pairs blast.process (cfg.create_process_model kw))))
      (s.blocks.length - 1) deactivate_periodic
    with hL
  have hLlen : L.length = s.blocks.length := by
    rw [hL, length_setAt, length_setAt, length_setAt]
  refine ⟨rfl, ?_, ?_⟩
  · intro bcur2 hbcur2
    have hbe : bcur2 = bcur := by
      rw [hbcur2] at hbcur; exact Option.some.inj hbcur
    subst hbe
    refine ⟨⟨cfg.create_process_model kw, true, none,
      some ⟨(pf (cfg.create_process_model kw) bcur2.process).map mkEq, true⟩⟩, ?_, rfl⟩
    rw [← hLlen, List.getElem?_concat_length]
  · intro blast2 hblast2
    have hbe : blast2 = blast := by
      rw [hblast2] at hlast; exact Option.some.inj hlast
    subst hbe
    refine ⟨deactivate_periodic (create_linking_constraints blast2
      (cfg.get_linking_variable_pairs blast2.process (cfg.create_process_model kw))),
      ?_, rfl⟩
    rw [List.getElem?_append, if_pos (by rw [hLlen]; omega), hL,
      getElem?_setAt_self, getElem?_setAt_self,
      getElem?_setAt_ne _ _ _ _ hne, hblast2]
    rfl

/-- Sequential links in a successfully built model: each block with a
successor holds exactly the linking container of the adjacent processes,
and the last block holds none. -/
theorem build_link_facts (cfg : MPConfig Kw P V) (d : List (Nat × Kw))
    (h : (build_with_dict cfg d).error = none) :
    (∀ t b b',
      (build_with_dict cfg d).state.blocks[t]? = some b →
      (build_with_dict cfg d).state.blocks[t + 1]? = some b' →
      b.link_constraints =
        some ⟨(cfg.get_linking_variable_pairs b.process b'.process).map mkEq, true⟩) ∧
    (∀ t b,
      (build_with_dict cfg d).state.blocks[t]? = some b →
      (build_with_dict cfg d).state.blocks[t + 1]? = none →
      b.link_constraints = none) := by
  obtain ⟨blks, hlen, hpos, hfresh, hfa, hdisj⟩ := build_char cfg d h
  have hl : (link_all cfg blks).length = blks.length := length_link_all cfg blks
  -- reduce both claims to facts about link_all blks, handling the optional
  -- periodic attachment on the last block (which never touches links).
  have hkey : ∀ t b b', (link_all cfg blks)[t]? = some b →
      (link_all cfg blks)[t + 1]? = some b' →
      b.link_constraints =
        some ⟨(cfg.get_linking_variable_pairs b.process b'.process).map mkEq, true⟩ := by
    intro t b b' hb hb'
    have hgt := getElem?_link_all cfg blks t
    have hgt1 := getElem?_link_all cfg blks (t + 1)
    cases ha1 : blks[t + 1]? with
    | none => rw [ha1] at hgt1; rw [hgt1] at hb'; exact Option.noConfusion hb'
    | some a' =>
      cases ha : blks[t]? with
      | none => rw [ha, ha1] at hgt; rw [hgt] at hb; exact Option.noConfusion hb
      | some a =>
        rw [ha, ha1] at hgt
        rw [hgt] at hb
        have hbdef := Option.some.inj hb
        have hbproc : b.process = a.process := by rw [← hbdef]; rfl
        have hb'proc : b'.process = a'.process := by
          rw [ha1] at hgt1
          cases ha2 : blks[t + 1 + 1]? with
          | none =>
            rw [ha2] at hgt1
            rw [hgt1] at hb'
            rw [← Option.some.inj hb']
          | some a'' =>
            rw [ha2] at hgt1
            rw [hgt1] at hb'
            rw [← Option.some.inj hb']
            rfl
        rw [hbproc, hb'proc, ← hbdef]
        rfl
  have hkey2 : ∀ t b, (link_all cfg blks)[t]? = some b →
      (link_all cfg blks)[t + 1]? = none → b.link_constraints = none := by
    intro t b hb hb'
    have hgt := getElem?_link_all cfg blks t
    have ha1 : blks[t + 1]? = none := by
      cases ha1 : blks[t + 1]? with
      | none => rfl
      | some a' =>
        exfalso
        have : t + 1 < blks.length := by
          by_contra hge
          rw [List.getElem?_eq_none (by omega)] at ha1
          exact Option.noConfusion ha1
        rw [← hl] at this
        rw [List.getElem?_eq_getElem this] at hb'
        exact Option.noConfusion hb'
    cases ha : blks[t]? with
    | none => rw [ha, ha1] at hgt; rw [hgt] at hb; exact Option.noConfusion hb
    | some a =>
      rw [ha, ha1] at hgt
      rw [hgt] at hb
      rw [← Option.some.inj hb]
      have ham : a ∈ blks := List.mem_iff_getElem?.mpr ⟨_, ha⟩
      exact (hfresh a ham).2.1
  rcases hdisj with ⟨hper, hblocks⟩ | ⟨pf, ppairs, hper, hblocks⟩
  · rw [hblocks]
    exact ⟨hkey, hkey2⟩
  · rw [hblocks]
    have hN : blks.length - 1 < (link_all cfg blks).length := by rw [hl]; omega
    constructor
    · intro t b b' hb hb'
      have htn : t ≠ blks.length - 1 := by
        intro he
        subst he
        rw [getElem?_setAt_ne _ _ _ _ (by omega),
          List.getElem?_eq_none (by rw [hl]; omega)] at hb'
        exact Option.noConfusion hb'
      rw [getElem?_setAt_ne _ _ _ _ (fun he => htn he.symm)] at hb
      by_cases ht1 : t + 1 = blks.length - 1
      · rw [ht1, getElem?_setAt_self] at hb'
        cases hlk : (link_all cfg blks)[blks.length - 1]? with
        | none => rw [hlk] at hb'; exact absurd hb' (by simp)
        | some lb =>
          rw [hlk] at hb'
          simp only [Option.map_some'] at hb'
          have hb'def := Option.some.inj hb'
          have hproc : b'.process = lb.process := by rw [← hb'def]; rfl
          have hkk := hkey t b lb hb (by rw [ht1]; exact hlk)
          rw [hproc]
          exact hkk
      · rw [getElem?_setAt_ne _ _ _ _ (fun he => ht1 he.symm)] at hb'
        exact hkey t b b' hb hb'
    · intro t b hb hb'
      by_cases ht : t = blks.length - 1
      · subst ht
        rw [getElem?_setAt_self] at hb
        cases hlk : (link_all cfg blks)[blks.length - 1]? with
        | none => rw [hlk] at hb; exact Option.noConfusion hb
        | some lb =>
          rw [hlk] at hb
          have hbdef := Option.some.inj hb
          have hlb : lb.link_constraints = none := by
            refine hkey2 _ lb hlk (List.getElem?_eq_none ?_)
            rw [hl]; omega
          rw [← hbdef]
          simpa [create_periodic_constraints] using hlb
      · rw [getElem?_setAt_ne _ _ _ _ (fun he => ht he.symm)] at hb
        have hb'2 : (link_all cfg blks)[t + 1]? = none := by
          by_cases ht1 : t + 1 = blks.length - 1
          · rw [ht1, getElem?_setAt_self] at hb'
            rw [ht1]
            cases hlk : (link_all cfg blks)[blks.length - 1]? with
            | none => rfl
            | some lb => rw [hlk] at hb'; exact absurd hb' (by simp)
          · rw [getElem?_setAt_ne _ _ _ _ (fun he => ht1 he.symm)] at hb'
            exact hb'
        exact hkey2 t b hb hb'2

/-! ## Stochastic build lemmas -/

theorem mem_all_scenario_containers (cfg : StochConfig Kw P V S) (b : SPeriodBlock P V S)
    (hb : b ∈ all_period_blocks (scenario_containers cfg)) :
    b = ⟨cfg.create_process_model cfg.flowsheet_options, none, none, none, false⟩ := by
  cases hsc : cfg.set_scenarios with
  | none =>
    rw [scenario_containers, hsc] at hb
    simp only [all_period_blocks, build_scenario_periods, List.map_map,
      List.mem_map] at hb
    obtain ⟨i, _, hbi⟩ := hb
    exact hbi.symm
  | some ss =>
    rw [scenario_containers, hsc] at hb
    simp only [all_period_blocks, List.mem_flatMap, List.mem_map] at hb
    obtain ⟨sp, ⟨sc, _, hsp⟩, ib, hib, hbi⟩ := hb
    rw [← hsp] at hib
    simp only [build_scenario_periods, List.mem_map] at hib
    obtain ⟨i, _, hii⟩ := hib
    rw [← hbi, ← hii]

theorem mem_all_apply (sd : S) (st : StochPeriods P V S) (b : SPeriodBlock P V S)
    (hb : b ∈ all_period_blocks (apply_snapshot_all sd st)) :
    ∃ b0 ∈ all_period_blocks st, b = { b0 with loaded := some sd } := by
  cases st with
  | single ps =>
    simp only [apply_snapshot_all, all_period_blocks, List.map_map, List.mem_map] at hb ⊢
    obtain ⟨ib, hib, hbi⟩ := hb
    exact ⟨ib.2, ⟨ib, hib, rfl⟩, hbi.symm⟩
  | multi ss =>
    simp only [apply_snapshot_all, all_period_blocks, List.mem_flatMap,
      List.mem_map] at hb ⊢
    obtain ⟨sp, ⟨sp0, hsp0, hsp⟩, ib, hib, hbi⟩ := hb
    rw [← hsp] at hib
    simp only [List.mem_map] at hib
    obtain ⟨ib0, hib0, hib0e⟩ := hib
    refine ⟨ib0.2, ⟨sp0, hsp0, ib0, hib0, rfl⟩, ?_⟩
    rw [← hbi, ← hib0e]

theorem mem_all_unfix (g : P → Kw → P) (opts : Kw) (st : StochPeriods P V S)
    (b : SPeriodBlock P V S) (hb : b ∈ all_period_blocks (unfix_all g opts st)) :
    ∃ b0 ∈ all_period_blocks st,
      b = { b0 with process := g b0.process opts, dof_unfixed := true } := by
  cases st with
  | single ps =>
    simp only [unfix_all, all_period_blocks, List.map_map, List.mem_map] at hb ⊢
    obtain ⟨ib, hib, hbi⟩ := hb
    exact ⟨ib.2, ⟨ib, hib, rfl⟩, hbi.symm⟩
  | multi ss =>
    simp only [unfix_all, all_period_blocks, List.mem_flatMap, List.mem_map] at hb ⊢
    obtain ⟨sp, ⟨sp0, hsp0, hsp⟩, ib, hib, hbi⟩ := hb
    rw [← hsp] at hib
    simp only [List.mem_map] at hib
    obtain ⟨ib0, hib0, hib0e⟩ := hib
    refine ⟨ib0.2, ⟨sp0, hsp0, ib0, hib0, rfl⟩, ?_⟩
    rw [← hbi, ← hib0e]

theorem mem_periods_trace (mk : Option Nat → Idx → Event S) (st : StochPeriods P V S)
    (e : Event S) (he : e ∈ periods_trace mk st) : ∃ sc i, e = mk sc i := by
  cases st with
  | single ps =>
    simp only [periods_trace, List.mem_map] at he
    obtain ⟨ib, _, hei⟩ := he
    exact ⟨none, ib.1, hei.symm⟩
  | multi ss =>
    simp only [periods_trace, List.mem_flatMap, List.mem_map] at he
    obtain ⟨sp, _, ib, _, hei⟩ := he
    exact ⟨some sp.1, ib.1, hei.symm⟩

/-- The stochastic build attaches no link_constraints container anywhere. -/
theorem stoch_link_none (cfg : StochConfig Kw P V S) : C1StochConcl cfg := by
  intro b hb
  cases hinit : cfg.initialization_func with
  | none =>
    have hbuild : build_stochastic_multiperiod cfg =
        ⟨scenario_containers cfg,
          periods_trace (fun s i => .builtPeriod s i) (scenario_containers cfg),
          none⟩ := by
      simp only [build_stochastic_multiperiod, hinit]
    rw [hbuild] at hb
    have hbb := mem_all_scenario_containers cfg b hb
    rw [hbb]
  | some f =>
    rcases hsol : cfg.solver (f (cfg.create_process_model cfg.flowsheet_options)
        cfg.initialization_options) with ⟨opt, blk2⟩
    cases opt with
    | false =>
      have hbuild : build_stochastic_multiperiod cfg =
          ⟨scenario_containers cfg,
            periods_trace (fun s i => .builtPeriod s i) (scenario_containers cfg)
              ++ [.seedInstance, .seedSolve false], some .assertionError⟩ := by
        simp only [build_stochastic_multiperiod, hinit, hsol]
        rfl
      rw [hbuild] at hb
      have hbb := mem_all_scenario_containers cfg b hb
      rw [hbb]
    | true =>
      cases hunfix : cfg.unfix_dof_func with
      | none =>
        have hbuild : (build_stochastic_multiperiod cfg).state =
            apply_snapshot_all (cfg.to_json blk2) (scenario_containers cfg) := by
          simp only [build_stochastic_multiperiod, hinit, hsol, hunfix]
          rw [if_pos trivial]
        rw [hbuild] at hb
        obtain ⟨b0, hb0m, hb0⟩ := mem_all_apply _ _ _ hb
        have h0 := mem_all_scenario_containers cfg b0 hb0m
        rw [hb0, h0]
      | some g =>
        have hbuild : (build_stochastic_multiperiod cfg).state =
            unfix_all g cfg.unfix_dof_options
              (apply_snapshot_all (cfg.to_json blk2) (scenario_containers cfg)) := by
          simp only [build_stochastic_multiperiod, hinit, hsol, hunfix]
          rw [if_pos trivial]
        rw [hbuild] at hb
        obtain ⟨b1, hb1m, hb1⟩ := mem_all_unfix _ _ _ _ hb
        obtain ⟨b0, hb0m, hb0⟩ := mem_all_apply _ _ _ hb1m
        have h0 := mem_all_scenario_containers cfg b0 hb0m
        rw [hb1, hb0, h0]

/-- The C9 initialization-lifecycle contract of the stochastic build. -/
theorem stoch_C9 (cfg : StochConfig Kw P V S) (f : P → Kw → P)
    (hinit : cfg.initialization_func = some f) : C9Concl cfg f := by
  rcases hsol : cfg.solver (f (cfg.create_process_model cfg.flowsheet_options)
      cfg.initialization_options) with ⟨opt, blk2⟩
  have hct0 : (periods_trace (fun s i => Event.builtPeriod s i)
      (scenario_containers cfg)).countP isSeedInstance = 0 := by
    rw [List.countP_eq_zero]
    intro e he
    obtain ⟨sc, i, rfl⟩ := mem_periods_trace _ _ _ he
    simp [isSeedInstance]
  have hna0 : ∀ e ∈ periods_trace (fun s i => Event.builtPeriod s i)
      (scenario_containers cfg), isApplyEvent e = false := by
    intro e he
    obtain ⟨sc, i, rfl⟩ := mem_periods_trace _ _ _ he
    rfl
  have hnu0 : ∀ e ∈ periods_trace (fun s i => Event.builtPeriod s i)
      (scenario_containers cfg), isUnfixEvent e = false := by
    intro e he
    obtain ⟨sc, i, rfl⟩ := mem_periods_trace _ _ _ he
    rfl
  unfold C9Concl
  rw [hsol]
  cases opt with
  | false =>
    have hbuild : build_stochastic_multiperiod cfg =
        ⟨scenario_containers cfg,
          periods_trace (fun s i => .builtPeriod s i) (scenario_containers cfg)
            ++ [.seedInstance, .seedSolve false], some .assertionError⟩ := by
      simp only [build_stochastic_multiperiod, hinit, hsol]
      rfl
    rw [hbuild]
    refine ⟨?_, ?_, ?_⟩
    · simp only [List.countP_append, hct0]
      simp [List.countP_cons, isSeedInstance]
    · intro _
      refine ⟨rfl, ?_, ?_⟩
      · intro b hb
        have hbb := mem_all_scenario_containers cfg b hb
        rw [hbb]
      · intro e he
        rcases List.mem_append.mp he with he | he
        · exact hna0 e he
        · rcases List.mem_cons.mp he with rfl | he
          · rfl
          · rcases List.mem_singleton.mp he with rfl
            rfl
    · intro h
      exact absurd h (by simp)
  | true =>
    have hna1 : ∀ e ∈ periods_trace (fun s i => Event.applySnapshot s i)
        (scenario_containers cfg), isUnfixEvent e = false := by
      intro e he
      obtain ⟨sc, i, rfl⟩ := mem_periods_trace _ _ _ he
      rfl
    have hct1 : (periods_trace (fun s i => Event.applySnapshot s i)
        (scenario_containers cfg)).countP isSeedInstance = 0 := by
      rw [List.countP_eq_zero]
      intro e he
      obtain ⟨sc, i, rfl⟩ := mem_periods_trace _ _ _ he
      simp [isSeedInstance]
    cases hunfix : cfg.unfix_dof_func with
    | none =>
      have hbuild : build_stochastic_multiperiod cfg =
          ⟨apply_snapshot_all (cfg.to_json blk2) (scenario_containers cfg),
            periods_trace (fun s i => .builtPeriod s i) (scenario_containers cfg)
              ++ [.seedInstance, .seedSolve true]
              ++ periods_trace (fun s i => .applySnapshot s i)
                  (scenario_containers cfg), none⟩ := by
        simp only [build_stochastic_multiperiod, hinit, hsol, hunfix]
        rw [if_pos trivial]
      rw [hbuild]
      refine ⟨?_, ?_, ?_⟩
      · simp only [List.countP_append, hct0, hct1]
        simp [List.countP_cons, isSeedInstance]
      · intro h
        exact absurd h (by simp)
      · intro _
        refine ⟨rfl, ?_, ?_⟩
        · intro b hb
          obtain ⟨b0, _, hb0⟩ := mem_all_apply _ _ _ hb
          rw [hb0]
        · refine ⟨(periods_trace (fun s i => Event.builtPeriod s i)
              (scenario_containers cfg)
              ++ [Event.seedInstance, Event.seedSolve true]
              ++ periods_trace (fun s i => Event.applySnapshot s i)
                  (scenario_containers cfg)).length, ?_, ?_⟩
          · rw [List.take_length]
            intro e he
            rcases List.mem_append.mp he with he | he
            · rcases List.mem_append.mp he with he | he
              · exact hnu0 e he
              · rcases List.mem_cons.mp he with rfl | he
                · rfl
                · rcases List.mem_singleton.mp he with rfl
                  rfl
            · exact hna1 e he
          · rw [List.drop_length]
            intro e he
            simp at he
    | some g =>
      have hbuild : build_stochastic_multiperiod cfg =
          ⟨unfix_all g cfg.unfix_dof_options
              (apply_snapshot_all (cfg.to_json blk2) (scenario_containers cfg)),
            (periods_trace (fun s i => .builtPeriod s i) (scenario_containers cfg)
              ++ [.seedInstance, .seedSolve true]
              ++ periods_trace (fun s i => .applySnapshot s i)
                  (scenario_containers cfg))
              ++ periods_trace (fun s i => .unfixDof s i)
                  (apply_snapshot_all (cfg.to_json blk2) (scenario_containers cfg)),
            none⟩ := by
        simp only [build_stochastic_multiperiod, hinit, hsol, hunfix]
        rw [if_pos trivial]
      rw [hbuild]
      refine ⟨?_, ?_, ?_⟩
      · simp only [List.countP_append, hct0, hct1]
        have hctu : (periods_trace (fun s i => Event.unfixDof s i)
            (apply_snapshot_all (cfg.to_json blk2)
              (scenario_containers cfg))).countP isSeedInstance = 0 := by
          rw [List.countP_eq_zero]
          intro e he
          obtain ⟨sc, i, rfl⟩ := mem_periods_trace _ _ _ he
          simp [isSeedInstance]
        rw [hctu]
        simp [List.countP_cons, isSeedInstance]
      · intro h
        exact absurd h (by simp)
      · intro _
        refine ⟨rfl, ?_, ?_⟩
        · intro b hb
          obtain ⟨b1, hb1m, hb1⟩ := mem_all_unfix _ _ _ _ hb
          obtain ⟨b0, _, hb0⟩ := mem_all_apply _ _ _ hb1m
          rw [hb1, hb0]
        · refine ⟨(periods_trace (fun s i => Event.builtPeriod s i)
              (scenario_containers cfg)
              ++ [Event.seedInstance, Event.seedSolve true]
              ++ periods_trace (fun s i => Event.applySnapshot s i)
                  (scenario_containers cfg)).length, ?_, ?_⟩
          · rw [List.take_left]
            intro e he
            rcases List.mem_append.mp he with he | he
            · rcases List.mem_append.mp he with he | he
              · exact hnu0 e he
              · rcases List.mem_cons.mp he with rfl | he
                · rfl
                · rcases List.mem_singleton.mp he with rfl
                  rfl
            · exact hna1 e he
          · rw [List.drop_left]
            intro e he
            obtain ⟨sc, i, rfl⟩ := mem_periods_trace _ _ _ he
            rfl

/-! ## Clustering pipeline lemmas -/

theorem generate_daily_data_loop_spec (h : Nat) (raw : List ℚ) (hp : 0 < h) :
    ∀ n i, raw.length - i ≤ n →
      (generate_daily_data_loop h raw i).length = (raw.length - i) / h ∧
      (∀ c ∈ generate_daily_data_loop h raw i, c.length = h) ∧
      (generate_daily_data_loop h raw i).flatten =
        (raw.drop i).take ((raw.length - i) / h * h) := by
  intro n
  induction n with
  | zero =>
    intro i hi
    unfold generate_daily_data_loop
    rw [dif_pos hp, dif_neg (by omega)]
    refine ⟨?_, by simp, ?_⟩
    · rw [(Nat.div_eq_of_lt (by omega) : (raw.length - i) / h = 0)]
      rfl
    · rw [(Nat.div_eq_of_lt (by omega) : (raw.length - i) / h = 0)]
      simp
  | succ n ih =>
    intro i hi
    unfold generate_daily_data_loop
    rw [dif_pos hp]
    by_cases hle : i + h ≤ raw.length
    · rw [dif_pos hle]
      obtain ⟨ihl, ihc, ihf⟩ := ih (i + h) (by omega)
      have hsub : raw.length - (i + h) = raw.length - i - h := by omega
      have hdiv : (raw.length - i) / h = (raw.length - i - h) / h + 1 :=
        Nat.div_eq_sub_div hp (by omega)
      refine ⟨?_, ?_, ?_⟩
      · rw [List.length_cons, ihl, hsub, hdiv]
      · intro c hc
        rcases List.mem_cons.mp hc with rfl | hc
        · rw [List.length_take, List.length_drop]
          omega
        · exact ihc c hc
      · rw [List.flatten_cons, ihf, hsub, hdiv]
        have hdd : raw.drop (i + h) = (raw.drop i).drop h := by
          rw [List.drop_drop, Nat.add_comm]
        rw [hdd, ← List.take_add]
        congr 1
        ring
    · rw [dif_neg hle]
      refine ⟨?_, by simp, ?_⟩
      · rw [(Nat.div_eq_of_lt (by omega) : (raw.length - i) / h = 0)]
        rfl
      · rw [(Nat.div_eq_of_lt (by omega) : (raw.length - i) / h = 0)]
        simp

theorem length_generate_daily_data (m : PriceTakerModel) (raw : List ℚ)
    (dl : List Nat) :
    (generate_daily_data m raw dl).length = raw.length / m.horizon_length := by
  by_cases hp : 0 < m.horizon_length
  · have := (generate_daily_data_loop_spec m.horizon_length raw hp
      (raw.length - 0) 0 (Nat.le_refl _)).1
    simpa [generate_daily_data] using this
  · have h0 : m.horizon_length = 0 := by omega
    rw [generate_daily_data, generate_daily_data_loop, h0]
    simp

theorem length_reconfigure (m : PriceTakerModel) (raw : List ℚ) :
    (reconfigure_raw_data m raw).length = raw.length / m.horizon_length :=
  length_generate_daily_data m raw _

theorem sum_setAt_add_one (w : List ℚ) (j : Nat) :
    (setAt w j (· + 1)).sum = w.sum + if j < w.length then 1 else 0 := by
  induction w generalizing j with
  | nil => simp [setAt]
  | cons a t ih =>
    cases j with
    | zero =>
      simp only [setAt, List.sum_cons, List.length_cons]
      rw [if_pos (by omega)]
      ring
    | succ n =>
      simp only [setAt, List.sum_cons, List.length_cons, ih n]
      by_cases hn : n < t.length
      · rw [if_pos hn, if_pos (by omega)]
        ring
      · rw [if_neg hn, if_neg (by omega)]
        ring

theorem compute_weights_core_sum (labels : List Nat) (w : List ℚ) :
    (labels.foldl (fun w j => setAt w j (· + 1)) w).sum =
      w.sum + (labels.countP (fun l => decide (l < w.length)) : ℚ) := by
  induction labels generalizing w with
  | nil => simp
  | cons l ls ih =>
    rw [List.foldl_cons, ih]
    have hfn : (fun l' => decide (l' < (setAt w l (· + 1)).length)) =
        (fun l' => decide (l' < w.length)) := by
      funext l'
      rw [length_setAt]
    rw [hfn, sum_setAt_add_one, List.countP_cons]
    by_cases hl : l < w.length
    · rw [if_pos hl, if_pos (by simpa using hl)]
      push_cast
      ring
    · rw [if_neg hl, if_neg (by simpa using hl)]
      push_cast
      ring

theorem compute_weights_sum (k : Nat) (labels : List Nat)
    (hlab : ∀ l ∈ labels, l < k) :
    (compute_weights k labels).sum = (labels.length : ℚ) := by
  rw [compute_weights, compute_weights_core_sum]
  rw [List.sum_replicate, List.length_replicate]
  rw [List.countP_eq_length.mpr (fun l hl => by simpa using hlab l hl)]
  simp

theorem compute_weights_core_length (labels : List Nat) (w : List ℚ) :
    (labels.foldl (fun w j => setAt w j (· + 1)) w).length = w.length := by
  induction labels generalizing w with
  | nil => rfl
  | cons l ls ih => rw [List.foldl_cons, ih, length_setAt]

theorem compute_weights_length (k : Nat) (labels : List Nat) :
    (compute_weights k labels).length = k := by
  rw [compute_weights, compute_weights_core_length, List.length_replicate]

theorem compute_weights_core_get (labels : List Nat) (w : List ℚ) (j : Nat) :
    (labels.foldl (fun w j => setAt w j (· + 1)) w)[j]? =
      w[j]?.map (· + (labels.count j : ℚ)) := by
  induction labels generalizing w with
  | nil =>
    cases hw : w[j]? <;> simp [hw]
  | cons l ls ih =>
    rw [List.foldl_cons, ih]
    by_cases hl : l = j
    · subst hl
      rw [getElem?_setAt_self]
      cases hw : w[l]? with
      | none => simp
      | some x =>
        simp only [Option.map_some', List.count_cons]
        rw [if_pos (by simp)]
        push_cast
        ring_nf
    · rw [getElem?_setAt_ne _ _ _ _ hl]
      cases hw : w[j]? with
      | none => simp
      | some x =>
        simp only [Option.map_some', List.count_cons]
        rw [if_neg (by simpa using hl)]
        simp

theorem compute_weights_get (k : Nat) (labels : List Nat) (j : Nat) (hj : j < k) :
    (compute_weights k labels)[j]? = some ((labels.count j : Nat) : ℚ) := by
  rw [compute_weights, compute_weights_core_get, List.getElem?_replicate,
    if_pos hj]
  simp

theorem snap_centroids_ok (k : Nat) (centers : List (List ℚ))
    (hk : k ≤ centers.length) (hrows : ∀ row ∈ centers.take k, 24 ≤ row.length) :
    snap_centroids k centers = .ok (centers.mapIdx (fun d row =>
      if d < k then
        row.mapIdx (fun t x => if t < 24 ∧ x < (1 / 10000 : ℚ) then 0 else x)
      else row)) := by
  rw [snap_centroids, if_pos ⟨hk, hrows⟩]

/-! ## Remaining support lemmas for C4 -/

theorem range_decomp (m n : Nat) (h : m < n) :
    List.range n = List.range m ++ m :: List.range' (m + 1) (n - m - 1) := by
  rw [List.range_eq_range', List.range_eq_range']
  rw [show (List.range' 0 m ++ m :: List.range' (m + 1) (n - m - 1) : List Nat) =
    List.range' 0 m ++ List.range' m (n - m) from by
      congr 1
      rw [show n - m = (n - m - 1) + 1 from by omega, List.range'_succ]
      simp]
  rw [show List.range' m (n - m) = List.range' (0 + 1 * m) (n - m) from by simp]
  rw [List.range'_append 0 m (n - m) 1]
  congr 1
  omega

theorem build_with_dict_error_none (cfg : MPConfig Kw P V) (d : List (Nat × Kw))
    (hsort : pySorted (d.map (·.1)) = List.range d.length)
    (hfound : ∀ t ∈ List.range cfg.n_time_points, (dictGet d t).isSome = true)
    (hpos : 0 < cfg.n_time_points) :
    (build_with_dict cfg d).error = none := by
  have hfound' : ∀ t ∈ List.range cfg.n_time_points,
      dictGet d t = some ((dictGet d t).getD cfg.empty_kwargs) := by
    intro t ht
    cases hdg : dictGet d t with
    | none => exact absurd (hfound t ht) (by rw [hdg]; simp)
    | some v => rfl
  have hbb := build_blocks_eq_map cfg d (List.range cfg.n_time_points)
    (fun t => (dictGet d t).getD cfg.empty_kwargs) hfound'
  have hlen : ((List.range cfg.n_time_points).map (fun t =>
      (⟨cfg.create_process_model ((dictGet d t).getD cfg.empty_kwargs), true, none,
        none⟩ : ProcessBlock P V))).length = cfg.n_time_points := by
    simp
  simp only [build_with_dict, if_pos hsort, hbb]
  cases hper : cfg.get_periodic_variable_pairs with
  | none =>
    cases hlk : link_all cfg ((List.range cfg.n_time_points).map (fun t =>
        (⟨cfg.create_process_model ((dictGet d t).getD cfg.empty_kwargs), true, none,
          none⟩ : ProcessBlock P V))) with
    | nil =>
      exfalso
      have hll := length_link_all cfg ((List.range cfg.n_time_points).map (fun t =>
        (⟨cfg.create_process_model ((dictGet d t).getD cfg.empty_kwargs), true, none,
          none⟩ : ProcessBlock P V)))
      rw [hlk, hlen] at hll
      simp at hll
      omega
    | cons x xs => rfl
  | some pf =>
    have hll := length_link_all cfg ((List.range cfg.n_time_points).map (fun t =>
      (⟨cfg.create_process_model ((dictGet d t).getD cfg.empty_kwargs), true, none,
        none⟩ : ProcessBlock P V)))
    rw [hlen] at hll
    have h1 : ∃ bl, (link_all cfg ((List.range cfg.n_time_points).map (fun t =>
        (⟨cfg.create_process_model ((dictGet d t).getD cfg.empty_kwargs), true, none,
          none⟩ : ProcessBlock P V))))[(link_all cfg ((List.range cfg.n_time_points).map
            (fun t => (⟨cfg.create_process_model ((dictGet d t).getD cfg.empty_kwargs),
              true, none, none⟩ : ProcessBlock P V)))).length - 1]? = some bl :=
      ⟨_, List.getElem?_eq_getElem (by omega)⟩
    have h0 : ∃ b0, (link_all cfg ((List.range cfg.n_time_points).map (fun t =>
        (⟨cfg.create_process_model ((dictGet d t).getD cfg.empty_kwargs), true, none,
          none⟩ : ProcessBlock P V))))[0]? = some b0 :=
      ⟨_, List.getElem?_eq_getElem (by omega)⟩
    obtain ⟨bl, hbl⟩ := h1
    obtain ⟨b0, hb0⟩ := h0
    rw [hbl, hb0]

/-! # Claim theorems -/

/-- C1 (corrected).  In build_multi_period_model every block with a
successor carries, under the fixed name link_constraints, exactly one
container of len(linking_pairs) equality constraints indexed 0..len-1 built
from the adjacent processes, and the last block carries none; the
stochastic path build_stochastic_multiperiod, contrary to the original
claim, creates no sequential LinkEdge at all: no period block of any
scenario ever carries a link_constraints container. -/
theorem C1_link_edges :
    (∀ (Kw P V : Type) (cfg : MPConfig Kw P V) (mdk : Option (List (Nat × Kw))),
      (build_multi_period_model cfg mdk).error = none → C1NonStochConcl cfg mdk) ∧
    (∀ (Kw P V S : Type) (cfg : StochConfig Kw P V S), C1StochConcl cfg) := by
  constructor
  · intro Kw P V cfg mdk h
    exact build_link_facts cfg (resolve_kwargs cfg mdk) h
  · intro Kw P V S cfg
    exact stoch_link_none cfg

/-- C1 counterexample: in the concrete stochastic build cfgS1 (two periods
1 and 2, one implicit scenario, linking function returning one pair) the
period block at index 1 exists but carries no link_constraints container,
whereas the claim demands exactly one sequential LinkEdge with
len(linking_pairs) = 1 constraints on it. -/
theorem C1_counterexample :
    (stoch_block cfgS1 (1, none, none)).isSome = true ∧
    hasSeqLinkEdge (stoch_block cfgS1 (1, none, none))
      ((cfgS1.get_linking_variable_pairs 0 0).length) = false := by
  decide

/-- C1 witness: the amended claim evaluated on the concrete configurations
cfgA (non-stochastic, 3 periods) and cfgS1 (stochastic). -/
theorem C1_witness :
    (build_multi_period_model cfgA none).error = none ∧
    C1NonStochConcl cfgA none ∧ C1StochConcl cfgS1 :=
  ⟨by decide, C1_link_edges.1 _ _ _ cfgA none (by decide),
    C1_link_edges.2 _ _ _ _ cfgS1⟩

/-- C2 (confirmed).  A successful build with n ≥ 2 yields a well-formed
state with first-active pointer 0, and on every well-formed state each
advance_time call deactivates (without deleting) the block at the current
first-active index, moves the pointer forward by exactly one, appends
exactly one factory-built block at index lastActive+1, creates exactly one
new sequential LinkEdge from the pre-shift last block to the new block, and
leaves every other block untouched; well-formedness is preserved, so the
contract holds for each subsequent call. -/
theorem C2_advance_contract :
    (∀ (Kw P V : Type) (cfg : MPConfig Kw P V) (mdk : Option (List (Nat × Kw))),
      (build_multi_period_model cfg mdk).error = none → 2 ≤ cfg.n_time_points →
        wfB cfg (build_multi_period_model cfg mdk).state = true ∧
        (build_multi_period_model cfg mdk).state.first_active_time = some 0) ∧
    (∀ (Kw P V : Type) (cfg : MPConfig Kw P V) (s : MPState P V) (kw : Kw) (fa : Nat),
      wfB cfg s = true → s.first_active_time = some fa →
        C2Concl cfg s kw fa ∧ wfB cfg (advance_time cfg s kw).state = true) := by
  constructor
  · intro Kw P V cfg mdk h hn
    obtain ⟨hwf, hfa, _, _⟩ := wf_build cfg (resolve_kwargs cfg mdk) h hn
    exact ⟨hwf, hfa⟩
  · intro Kw P V cfg s kw fa hwf hfa
    exact ⟨advance_C2 cfg s kw fa hwf hfa, (advance_step cfg s kw hwf).2.1⟩

/-- C2 witness: the contract applied to one advance on the built state of
the concrete configuration cfgA. -/
theorem C2_witness :
    wfB cfgA sA = true ∧ sA.first_active_time = some 0 ∧
    (C2Concl cfgA sA 7 0 ∧ wfB cfgA (advance_time cfgA sA 7).state = true) :=
  ⟨by decide, by decide, C2_advance_contract.2 _ _ _ cfgA sA 7 0 (by decide) (by decide)⟩

/-- C3 (confirmed).  With periodic coupling configured and a successful
build (n ≥ 2), after every number of advances exactly one periodic
container is active (the one on the current last block), the previous ones
are retained deactivated (the container count is N+1 after N advances),
and each advance creates the new periodic LinkEdge from the new last block
to the post-shift first-active block while deactivating, not deleting, the
one anchored at the previous last block. -/
theorem C3_periodic_invariant :
    ∀ (Kw P V : Type) (cfg : MPConfig Kw P V) (pf : P → P → List (V × V))
      (mdk : Option (List (Nat × Kw))),
      cfg.get_periodic_variable_pairs = some pf → 2 ≤ cfg.n_time_points →
      (build_multi_period_model cfg mdk).error = none →
      (∀ kws : List Kw, C3Concl cfg mdk kws) ∧
      (∀ (s : MPState P V) (kw : Kw) (fa : Nat), wfB cfg s = true →
        s.first_active_time = some fa → C3StepConcl cfg s kw fa pf) := by
  intro Kw P V cfg pf mdk hper hn herr
  obtain ⟨hwf, hfa0, hlen, hcount⟩ := wf_build cfg (resolve_kwargs cfg mdk) herr hn
  constructor
  · intro kws
    obtain ⟨he, hw, hc⟩ :=
      advanceN_spec cfg (build_multi_period_model cfg mdk).state kws hwf
    obtain ⟨hact, hlastact⟩ := wf_count_active cfg _ hw pf hper
    refine ⟨he, hact, ?_, hlastact⟩
    rw [hc, show countPeriodicContainers (build_multi_period_model cfg mdk).state = 1 from
      hcount (by rw [hper]; rfl)]
    rw [hper]
    simp only [Option.isSome_some, if_true]
    omega
  · intro s kw fa hwf' hfa'
    exact advance_C3step cfg s kw fa pf hwf' hfa' hper

/-- C3 witness: the invariant applied to the concrete configuration cfgA
with two advances, and the per-step contract on its built state. -/
theorem C3_witness :
    cfgA.get_periodic_variable_pairs = some pfA ∧ 2 ≤ cfgA.n_time_points ∧
    (build_multi_period_model cfgA none).error = none ∧
    C3Concl cfgA none [4, 5] ∧ C3StepConcl cfgA sA 9 0 pfA := by
  have h := C3_periodic_invariant _ _ _ cfgA pfA none rfl (by decide) (by decide)
  exact ⟨rfl, by decide, by decide, h.1 [4, 5], h.2 sA 9 0 (by decide) (by decide)⟩

/-- C4 counterexample: with n_time_points = 1 and kwargs keyed {0, 1}
(a key set different from 0..n-1 = {0}), the build does not abort at all:
it completes with error = none and one block built, because the assert only
compares the keys against range(len(kwargs)). -/
theorem C4_counterexample :
    (dB.map (·.1) = [0, 1] ∧ cfgB1.n_time_points = 1) ∧
    (build_multi_period_model cfgB1 (some dB)).error = none ∧
    (build_multi_period_model cfgB1 (some dB)).state.blocks.length = 1 := by
  decide

/-- C4 (corrected).  The assert aborts the build before any block is
constructed exactly when the sorted kwargs keys differ from
0..len(kwargs)-1; when the keys are 0..m-1 with m below n_time_points the
build instead raises KeyError only after constructing m blocks (partial
construction), and with m at least n_time_points it completes, silently
ignoring the surplus keys. -/
theorem C4_kwargs_check :
    ∀ (Kw P V : Type) (cfg : MPConfig Kw P V) (d : List (Nat × Kw)),
      (pySorted (d.map (·.1)) ≠ List.range d.length →
        build_multi_period_model cfg (some d) = ⟨⟨[], none⟩, some .assertionError⟩) ∧
      (pySorted (d.map (·.1)) = List.range d.length →
        d.length < cfg.n_time_points →
        ∃ blks, build_multi_period_model cfg (some d) =
          ⟨⟨blks, none⟩, some .keyError⟩ ∧ blks.length = d.length) ∧
      (pySorted (d.map (·.1)) = List.range d.length →
        cfg.n_time_points ≤ d.length → 0 < cfg.n_time_points →
        (build_multi_period_model cfg (some d)).error = none) := by
  intro Kw P V cfg d
  have hres : resolve_kwargs cfg (some d) = d := rfl
  refine ⟨?_, ?_, ?_⟩
  · intro hneq
    rw [build_multi_period_model, hres, build_with_dict, if_neg hneq]
  · intro hsort hm
    have hfound : ∀ u ∈ List.range d.length, (dictGet d u).isSome = true := by
      intro u hu
      rw [dictGet_isSome_iff]
      rw [← mem_pySorted, hsort]
      exact hu
    have hmiss : dictGet d d.length = none := by
      cases hdg : dictGet d d.length with
      | none => rfl
      | some v =>
        exfalso
        have : d.length ∈ d.map (·.1) := by
          rw [← dictGet_isSome_iff]
          rw [hdg]
          rfl
        rw [← mem_pySorted, hsort, List.mem_range] at this
        omega
    obtain ⟨bs, hbs, hlen⟩ := build_blocks_fail cfg d d.length (List.range d.length)
      (List.range' (d.length + 1) (cfg.n_time_points - d.length - 1)) hfound hmiss
    refine ⟨bs, ?_, by simpa using hlen⟩
    have hbd : build_blocks cfg d (List.range cfg.n_time_points) =
        (bs, some .keyError) := by
      rw [range_decomp d.length cfg.n_time_points hm]
      exact hbs
    rw [build_multi_period_model, hres]
    simp only [build_with_dict, if_pos hsort, hbd]
  · intro hsort hn hpos
    rw [build_multi_period_model, hres]
    refine build_with_dict_error_none cfg d hsort ?_ hpos
    intro t ht
    rw [dictGet_isSome_iff, ← mem_pySorted, hsort, List.mem_range]
    rw [List.mem_range] at ht
    omega

/-- C4 witness: the deficit case applied to the concrete configuration
cfgB3 (n = 3) with the two-key kwargs dict dB: the build raises KeyError
after constructing exactly two blocks. -/
theorem C4_witness :
    pySorted (dB.map (·.1)) = List.range dB.length ∧
    dB.length < cfgB3.n_time_points ∧
    (∃ blks, build_multi_period_model cfgB3 (some dB) =
      ⟨⟨blks, none⟩, some .keyError⟩ ∧ blks.length = dB.length) :=
  ⟨by decide, by decide, (C4_kwargs_check _ _ _ cfgB3 dB).2.1 (by decide) (by decide)⟩

section

attribute [local semireducible] Rat.add Rat.mul Rat.inv

theorem gddl_step (h : Nat) (raw : List ℚ) (i : Nat) (hp : 0 < h)
    (hle : i + h ≤ raw.length) :
    generate_daily_data_loop h raw i =
      ((raw.drop i).take h) :: generate_daily_data_loop h raw (i + h) := by
  rw [generate_daily_data_loop]
  rw [dif_pos hp, dif_pos hle]

theorem gddl_stop (h : Nat) (raw : List ℚ) (i : Nat)
    (hle : ¬ (i + h ≤ raw.length)) :
    generate_daily_data_loop h raw i = [] := by
  rw [generate_daily_data_loop]
  by_cases hp : 0 < h
  · rw [dif_pos hp, dif_neg hle]
  · rw [dif_neg hp]

theorem reconfig48_eval : reconfigure_raw_data mPT raw48 =
    [List.replicate 24 (1 : ℚ), List.replicate 24 (2 : ℚ)] := by
  rw [reconfigure_raw_data, generate_daily_data]
  rw [show mPT.horizon_length = 24 from rfl]
  rw [gddl_step 24 raw48 0 (by decide) (by decide),
    gddl_step 24 raw48 24 (by decide) (by decide),
    gddl_stop 24 raw48 48 (by decide)]
  decide

theorem reconfig25_eval : reconfigure_raw_data mPT25 raw25 = [raw25] := by
  rw [reconfigure_raw_data, generate_daily_data]
  rw [show mPT25.horizon_length = 25 from rfl]
  rw [gddl_step 25 raw25 0 (by decide) (by decide),
    gddl_stop 25 raw25 25 (by decide)]
  decide

/-- C5 counterexample: with the RNG-state-sensitive k-means stub fitSwap,
two calls of cluster_lmp_data on the same inputs, the second picking up
the ambient RNG state left by the first, return different clustering
results — cluster_lmp_data never reseeds, contrary to the claim that it
seeds numpy's global RNG on every call. -/
theorem C5_counterexample :
    (cluster_lmp_data fitSwap mPT raw48 2 0).1.toOption ≠
    (cluster_lmp_data fitSwap mPT raw48 2
      ((cluster_lmp_data fitSwap mPT raw48 2 0).2)).1.toOption := by
  simp only [cluster_lmp_data, reconfig48_eval]
  decide

/-- C5 (corrected).  cluster_lmp_data performs no seeding at all: its
result is a pure function of its inputs including the ambient global RNG
state, hence reproducible only when that ambient state coincides; it is
get_optimal_n_clusters that calls np.random.seed(self.seed) on every
invocation, making its own result independent of the ambient RNG state. -/
theorem C5_determinism (fit : KMeansFit) (knee : KneeLoc) (m : PriceTakerModel)
    (raw : List ℚ) (k : Nat) (daily : List (List ℚ)) (kmin kmax : Option Nat)
    (rng rng' : RNG) :
    (rng = rng' →
      cluster_lmp_data fit m raw k rng = cluster_lmp_data fit m raw k rng') ∧
    get_optimal_n_clusters fit knee m daily kmin kmax rng =
      get_optimal_n_clusters fit knee m daily kmin kmax rng' :=
  ⟨fun h => by rw [h], rfl⟩

/-- C5 witness: both conjuncts evaluated at the concrete model mPT with
the deterministic k-means stub fitGood and RNG states 5 and 5 (first
conjunct) resp. 5 and 17 (second conjunct). -/
theorem C5_witness :
    cluster_lmp_data fitGood mPT raw48 2 5 = cluster_lmp_data fitGood mPT raw48 2 5 ∧
    get_optimal_n_clusters fitGood kneeFive mPT [raw48] none none 5 =
      get_optimal_n_clusters fitGood kneeFive mPT [raw48] none none 17 :=
  ⟨(C5_determinism fitGood kneeFive mPT raw48 2 [raw48] none none 5 5).1 rfl,
    (C5_determinism fitGood kneeFive mPT raw48 2 [raw48] none none 5 17).2⟩

/-- C6 (confirmed).  On a successful cluster_lmp_data run the weights list
has one entry per cluster, entry j counting the samples k-means labelled
j, and the weights sum to floor(len(raw_data)/horizon_length), the number
of reconfigured samples — under the interface facts that the fitted
labels are one per sample and each below n_clusters, and that the fitted
centers support the snapping step. -/
theorem C6_weight_sum (fit : KMeansFit) (m : PriceTakerModel) (raw : List ℚ)
    (k : Nat) (rng : RNG)
    (hlab : ∀ l ∈ (fit (reconfigure_raw_data m raw) k rng).1.labels, l < k)
    (hlen : (fit (reconfigure_raw_data m raw) k rng).1.labels.length =
      (reconfigure_raw_data m raw).length)
    (hk : k ≤ (fit (reconfigure_raw_data m raw) k rng).1.cluster_centers.length)
    (hrows : ∀ row ∈ (fit (reconfigure_raw_data m raw) k rng).1.cluster_centers.take k,
      24 ≤ row.length) :
    C6Concl fit m raw k rng := by
  rcases hfit : fit (reconfigure_raw_data m raw) k rng with ⟨res, rng2⟩
  simp only [hfit] at hlab hlen hk hrows
  have hsnap := snap_centroids_ok k res.cluster_centers hk hrows
  refine ⟨res.cluster_centers.mapIdx (fun d row =>
      if d < k then
        row.mapIdx (fun t x => if t < 24 ∧ x < (1 / 10000 : ℚ) then 0 else x)
      else row), compute_weights k res.labels, rng2, ?_, ?_, ?_, ?_⟩
  · simp only [cluster_lmp_data, hfit, hsnap]
  · exact compute_weights_length k res.labels
  · rw [compute_weights_sum k res.labels hlab, hlen, length_reconfigure]
  · intro j hj
    rw [hfit]
    exact compute_weights_get k res.labels j hj

/-- C6 witness: the weight property evaluated on the concrete model mPT,
the 48-entry price series raw48, two clusters and the k-means stub
fitGood, all interface hypotheses checked by evaluation. -/
theorem C6_witness :
    (∀ l ∈ (fitGood (reconfigure_raw_data mPT raw48) 2 0).1.labels, l < 2) ∧
    C6Concl fitGood mPT raw48 2 0 :=
  ⟨by rw [reconfig48_eval]; decide,
    C6_weight_sum fitGood mPT raw48 2 0 (by rw [reconfig48_eval]; decide)
      (by rw [reconfig48_eval]; decide) (by rw [reconfig48_eval]; decide)
      (by rw [reconfig48_eval]; decide)⟩

/-- C7 (corrected).  The snapping pass runs over the literal range(24),
not over the horizon: in every returned centroid row only the entries at
positions below 24 are snapped (each is ≥ 1e-4 or exactly 0), while any
entry at position ≥ 24 is passed through unchanged from the raw k-means
centroid, however small. -/
theorem C7_snapping (fit : KMeansFit) (m : PriceTakerModel) (raw : List ℚ)
    (k : Nat) (rng : RNG) (lmp : List (List ℚ)) (w : List ℚ) (rng' : RNG)
    (heq : cluster_lmp_data fit m raw k rng = (.ok (lmp, w), rng'))
    (d t : Nat) (row : List ℚ) (x : ℚ) (hd : d < k)
    (hrow : lmp[d]? = some row) (hx : row[t]? = some x) :
    (t < 24 → (1 / 10000 : ℚ) ≤ x ∨ x = 0) ∧
    (24 ≤ t →
      ((fit (reconfigure_raw_data m raw) k rng).1.cluster_centers[d]?.bind
        (fun r0 => r0[t]?)) = some x) := by
  rcases hfit : fit (reconfigure_raw_data m raw) k rng with ⟨res, rng2⟩
  simp only [cluster_lmp_data, hfit] at heq
  rcases hsnap : snap_centroids k res.cluster_centers with e | snapped
  · rw [hsnap] at heq
    exact absurd (congrArg (fun p => p.1) heq) (by simp)
  · rw [hsnap] at heq
    have hlmp : snapped = lmp :=
      congrArg Prod.fst (Except.ok.inj (congrArg Prod.fst heq))
    rw [snap_centroids] at hsnap
    by_cases hcond : k ≤ res.cluster_centers.length ∧
        ∀ row ∈ res.cluster_centers.take k, 24 ≤ row.length
    · rw [if_pos hcond] at hsnap
      have hsnapped : snapped = res.cluster_centers.mapIdx (fun d row =>
          if d < k then
            row.mapIdx (fun t x => if t < 24 ∧ x < (1 / 10000 : ℚ) then 0 else x)
          else row) := (Except.ok.inj hsnap).symm
      rw [← hlmp, hsnapped] at hrow
      rw [List.getElem?_mapIdx] at hrow
      rcases hcc : res.cluster_centers[d]? with _ | r0
      · rw [hcc] at hrow; exact absurd hrow (by simp)
      · rw [hcc] at hrow
        simp only [Option.map_some'] at hrow
        have hrow' : row = if d < k then
            r0.mapIdx (fun t x => if t < 24 ∧ x < (1 / 10000 : ℚ) then 0 else x)
          else r0 := (Option.some.inj hrow).symm
        rw [if_pos hd] at hrow'
        rw [hrow'] at hx
        rw [List.getElem?_mapIdx] at hx
        rcases hr0t : r0[t]? with _ | v0
        · rw [hr0t] at hx; exact absurd hx (by simp)
        · rw [hr0t] at hx
          simp only [Option.map_some'] at hx
          have hxv : x = if t < 24 ∧ v0 < (1 / 10000 : ℚ) then 0 else v0 :=
            (Option.some.inj hx).symm
          constructor
          · intro ht24
            by_cases hv : t < 24 ∧ v0 < (1 / 10000 : ℚ)
            · right; rw [hxv, if_pos hv]
            · left
              rw [hxv, if_neg hv]
              rcases not_and_or.mp hv with h1 | h2
              · exact absurd ht24 h1
              · exact le_of_not_lt h2
          · intro ht24
            simp only [Option.some_bind]
            rw [hr0t, hxv, if_neg (fun hc => absurd hc.1 (by omega))]
    · rw [if_neg hcond] at hsnap
      exact absurd hsnap (by simp)

/-- C7 counterexample: with horizon_length 25 and a 25-entry price series
of constant 1/100000, the single returned centroid row keeps the raw value
1/100000 at position 24, because range(24) covers only positions 0..23:
the returned entry is neither ≥ 1e-4 nor 0, refuting the claim that every
entry of the returned centroids is snapped. -/
theorem C7_counterexample :
    ((cluster_lmp_data fitC7 mPT25 raw25 1 0).1.toOption.bind
      (fun out => (out.1[0]?).bind (fun r => r[24]?))) = some (1 / 100000 : ℚ) ∧
    ¬ ((1 / 10000 : ℚ) ≤ 1 / 100000 ∨ (1 / 100000 : ℚ) = 0) := by
  constructor
  · simp only [cluster_lmp_data, reconfig25_eval]
    decide
  · decide

/-- C7 witness: the snapping theorem applied to the concrete run of
cluster_lmp_data with fitGood on raw48 (horizon 24, two clusters) at
cluster 0, position 0. -/
theorem C7_witness :
    cluster_lmp_data fitGood mPT raw48 2 0 =
      (.ok ([List.replicate 24 (1 : ℚ), List.replicate 24 (2 : ℚ)],
        ([1, 1] : List ℚ)), 1) ∧
    (0 < 24 → (1 / 10000 : ℚ) ≤ 1 ∨ (1 : ℚ) = 0) := by
  have hcl : cluster_lmp_data fitGood mPT raw48 2 0 =
      (.ok ([List.replicate 24 (1 : ℚ), List.replicate 24 (2 : ℚ)],
        ([1, 1] : List ℚ)), 1) := by
    simp only [cluster_lmp_data, reconfig48_eval]
    rfl
  have h := C7_snapping fitGood mPT raw48 2 0
    [List.replicate 24 (1 : ℚ), List.replicate 24 (2 : ℚ)] [1, 1] 1 hcl
    0 0 (List.replicate 24 (1 : ℚ)) 1 (by decide) (by decide) (by decide)
  exact ⟨hcl, h.1⟩

end

/-- C8 (confirmed).  generate_daily_data splits the price series into
floor(len/horizon) consecutive chunks of exactly horizon entries each,
dropping the leftover tail: the chunk list has length len/horizon, every
chunk has length horizon, their concatenation is the first
(len/horizon)*horizon entries of the series, and a 48-entry series with
horizon 24 yields exactly 2 samples. -/
theorem C8_daily_partition (m : PriceTakerModel) (raw : List ℚ)
    (dl : List Nat) (hh : 0 < m.horizon_length) :
    (generate_daily_data m raw dl).length = raw.length / m.horizon_length ∧
    (∀ c ∈ generate_daily_data m raw dl, c.length = m.horizon_length) ∧
    (generate_daily_data m raw dl).flatten =
      raw.take ((raw.length / m.horizon_length) * m.horizon_length) ∧
    (raw.length = 48 → m.horizon_length = 24 →
      (generate_daily_data m raw dl).length = 2) := by
  have hspec := generate_daily_data_loop_spec m.horizon_length raw hh raw.length 0
    (by omega)
  have hlen : (generate_daily_data m raw dl).length =
      raw.length / m.horizon_length := by
    simpa [generate_daily_data] using hspec.1
  refine ⟨hlen, ?_, ?_, ?_⟩
  · intro c hc
    exact hspec.2.1 c (by simpa [generate_daily_data] using hc)
  · have := hspec.2.2
    simpa [generate_daily_data] using this
  · intro h48 h24
    rw [hlen, h48, h24]

/-- C8 witness: the partition property evaluated on the 48-entry series
raw48 with the concrete model mPT whose horizon is 24. -/
theorem C8_witness :
    0 < mPT.horizon_length ∧
    (generate_daily_data mPT raw48 []).length = raw48.length / mPT.horizon_length :=
  ⟨by decide, (C8_daily_partition mPT raw48 [] (by decide)).1⟩

/-- C9 (confirmed).  When an initialization function is configured, the
stochastic build instantiates exactly one seed period block, solves it,
and snapshots it; if the solve is not optimal the build raises
AssertionError before any snapshot is taken (no block is initialised); if
it is optimal the serialized seed solution is loaded into every period
block of every scenario, and every from_json load happens before any
degree-of-freedom unfixing in the build trace. -/
theorem C9_seed_lifecycle :
    ∀ (Kw P V S : Type) (cfg : StochConfig Kw P V S) (f : P → Kw → P),
      cfg.initialization_func = some f → C9Concl cfg f :=
  fun _ _ _ _ cfg f hinit => stoch_C9 cfg f hinit

/-- C9 witness: the lifecycle evaluated on the concrete stochastic
configuration cfgS9 with its initialization function fS9. -/
theorem C9_witness :
    cfgS9.initialization_func = some fS9 ∧ C9Concl cfgS9 fS9 :=
  ⟨rfl, C9_seed_lifecycle _ _ _ _ cfgS9 fS9 rfl⟩

/-- C10 (confirmed).  get_optimal_n_clusters sweeps k over the configured
range, collecting one inertia per k, and hands the curve to KneeLocator;
when the knee comes back None the subsequent int(None) conversion raises
TypeError (the embedded run returns the TypeError outcome), and when a
knee n is found the function returns it together with the inertia
curve. -/
theorem C10_knee_crash (fit : KMeansFit) (knee : KneeLoc) (m : PriceTakerModel)
    (daily : List (List ℚ)) (kmin kmax : Option Nat) (rng : RNG) :
    (knee (knee_curve fit m daily kmin kmax rng).1
        (knee_curve fit m daily kmin kmax rng).2 = none →
      (get_optimal_n_clusters fit knee m daily kmin kmax rng).1 =
        .error .typeError) ∧
    (∀ nc, knee (knee_curve fit m daily kmin kmax rng).1
        (knee_curve fit m daily kmin kmax rng).2 = some nc →
      (get_optimal_n_clusters fit knee m daily kmin kmax rng).1 =
        .ok (nc, (knee_curve fit m daily kmin kmax rng).2)) := by
  rcases hscan : inertia_scan fit daily
      (List.range' (kmin.getD 4) ((kmax.getD 30) - (kmin.getD 4)))
      (np_random_seed m.seed rng) with ⟨iv, rng2⟩
  have hcurve : knee_curve fit m daily kmin kmax rng =
      ((List.range' (kmin.getD 4) ((kmax.getD 30) - (kmin.getD 4))), iv) := by
    simp only [knee_curve, hscan]
  constructor
  · intro hk
    rw [hcurve] at hk
    simp only [get_optimal_n_clusters, hscan, hk]
  · intro nc hk
    rw [hcurve] at hk
    simp only [get_optimal_n_clusters, hscan, hk]
    rw [hcurve]

/-- C10 witness: both branches evaluated with the concrete model mPT —
with the always-None knee locator kneeNone the result is the TypeError
outcome, and with kneeFive the result is n = 5 with the inertia curve. -/
theorem C10_witness :
    (get_optimal_n_clusters fitGood kneeNone mPT [raw48] none none 0).1 =
      .error .typeError ∧
    (get_optimal_n_clusters fitGood kneeFive mPT [raw48] none none 0).1 =
      .ok (5, (knee_curve fitGood mPT [raw48] none none 0).2) :=
  ⟨(C10_knee_crash fitGood kneeNone mPT [raw48] none none 0).1 rfl,
    (C10_knee_crash fitGood kneeFive mPT [raw48] none none 0).2 5 rfl⟩

end Idaes
